import Mathlib

/-!
# Verification of the schema-driven configuration construction engine

A shallow embedding of the configuration engine of `modules/core/config.py`
(class `BaseConfig`) together with the polymorphic variant resolvers of
`modules/generation/backend_patterns.py` (`BackendConfig.get_class`) and
`modules/interfaces/patterns.py` (`InterfaceConfig.get_class`).

Modelling conventions:
* YAML/JSON documents are modelled by the mutual inductive `Value` /
  `ValueList` / `ValueMap`; a Python `dict` is a `ValueMap` (an ordered
  association list, mirroring Python's insertion-ordered dicts).
* A constructed pydantic model instance is the value `Value.vNode cls fields`
  holding the class name and the (field-name, value) assignments in class
  field order; pydantic `__eq__` compares class and field values, which
  structural equality of `vNode` mirrors.
* Static Python type annotations are modelled by `PyAtom` / `PyType`;
  `typing.Union` flattens its arguments, so a union is a flat list of
  non-union atoms, exactly like the result of `typing.get_args`.
* Schema documents are association lists of `SchemaEntry`; an `Option` field
  of `SchemaEntry` records whether the corresponding key (`required`, `type`,
  `default`, `minimum`, `maximum`, `enum`) is present in the YAML entry.
* Python's in-place mutation of the `data` dict inside `create` is made
  explicit: `create` returns both the instantiated node and the final state
  of the `data` dictionary that the Python code mutates in place.
* `importlib`-based class loading is modelled by `importClass` over the
  table of module files actually present in the repository (a missing module
  file is a `ModuleNotFoundError`); the resolved class *name* then indexes
  the class table (`Env.classes`), and the schema store (`Env.schemas`,
  keyed by resolved class name) plays the role of the YAML files addressed
  by `get_schema_path`.
* Numbers are modelled by `Int` (the schemas only use integral bounds);
  a Python `TypeError` raised by comparing a non-number against a bound, or
  by calling `issubclass` on a non-class annotation, is an explicit error.
-/

mutual

inductive Value where
  | vNone
  | vStr (s : String)
  | vInt (n : Int)
  | vList (xs : ValueList)
  | vDict (d : ValueMap)
  | vNode (cls : String) (fields : ValueMap)
deriving DecidableEq, Repr

inductive ValueList where
  | nil
  | cons (v : Value) (rest : ValueList)
deriving DecidableEq, Repr

inductive ValueMap where
  | nil
  | cons (k : String) (v : Value) (rest : ValueMap)
deriving DecidableEq, Repr

end

/-- A (possibly nested) configuration document: a Python dict. -/
abbrev Data := ValueMap

namespace ValueMap

/-- `d[k]` lookup / `k in d` membership test on a Python dict. -/
def lookupKey : ValueMap → String → Option Value
  | .nil, _ => none
  | .cons k' v rest, k => if k' = k then some v else lookupKey rest k

/-- `d[k] = v` assignment on a Python dict: overwrites in place if the key
exists, otherwise appends (Python dicts keep insertion order). -/
def setKey : ValueMap → String → Value → ValueMap
  | .nil, k, v => .cons k v .nil
  | .cons k' v' rest, k, v =>
    if k' = k then .cons k v rest else .cons k' v' (setKey rest k v)

/-- Truthiness of a dict (`if parent_data:`): empty dicts and `None` are falsy. -/
def isTruthy : ValueMap → Bool
  | .nil => false
  | .cons _ _ _ => true

end ValueMap

namespace ValueList

/-- Python `v in xs` membership (list of enum values). -/
def containsV : ValueList → Value → Bool
  | .nil, _ => false
  | .cons v' rest, v => v' = v || containsV rest v

end ValueList

/-- Atomic static annotations: proper classes, `NoneType`, unsubscripted
`typing.Dict`, `BaseModel`, `BaseConfig` subclasses (`pconfig name`), and
arbitrary other classes. -/
inductive PyAtom where
  | pstr
  | pint
  | pfloat
  | pdict
  | plist
  | pnone
  | pdictAlias
  | pbaseModel
  | pconfig (name : String)
  | pother (name : String)
deriving DecidableEq, Repr

/-- A static annotation: an atom, or a `typing.Union` of atoms (Python
flattens nested unions, so `get_args` always yields non-union members). -/
inductive PyType where
  | atom (a : PyAtom)
  | union (ts : List PyAtom)
deriving DecidableEq, Repr

/-- The field annotations that are recursed into by `create` and tolerated by
`validate_fields`: `inspect.isclass(t) and issubclass(t, BaseConfig)`. -/
def isNodeType : PyType → Bool
  | .atom (.pconfig _) => true
  | _ => false

/-- One property entry of a schema document.  Each `Option` records whether
the YAML key is present at all. -/
structure SchemaEntry where
  required : Option Bool := none
  type : Option String := none
  default : Option Value := none
  minimum : Option Int := none
  maximum : Option Int := none
  enum : Option ValueList := none
deriving DecidableEq, Repr

/-- The `properties` table of one schema document, in YAML order. -/
abbrev Schema := List (String × SchemaEntry)

/-- First-match lookup in a schema property table. -/
def slookup : Schema → String → Option SchemaEntry
  | [], _ => none
  | (k', e) :: rest, k => if k' = k then some e else slookup rest k

/-- One pydantic model field: its name, static annotation, and pydantic
default (`none` means the field has no default, i.e. `is_required()`). -/
structure FieldDecl where
  name : String
  ty : PyType
  pydDefault : Option Value := none
deriving DecidableEq, Repr

/-- First-match lookup of a field's annotation (`merged_annotations[f]`). -/
def findFieldTy : List FieldDecl → String → Option PyType
  | [], _ => none
  | fd :: rest, f => if fd.name = f then some fd.ty else findFieldTy rest f

/-- The two variant families whose `get_class` overrides the default
(`BackendConfig` in `backend_patterns.py`, `InterfaceConfig` in
`interfaces/patterns.py`); subclasses inherit the override. -/
inductive VariantFamily where
  | backend
  | interface
deriving DecidableEq, Repr

/-- A `BaseConfig` subclass: its pydantic `model_fields` (with annotations,
in MRO-merged order), its superclass names (for pydantic's isinstance-based
acceptance of subclass instances), and the variant family whose `get_class`
it inherits, if any. -/
structure ConfigClass where
  fields : List FieldDecl
  supers : List String := []
  family : Option VariantFamily := none
deriving DecidableEq, Repr

/-- The static environment: the loaded classes by name, and the schema store.
The schema store is keyed by resolved class name: it abstracts
`get_schema_path` plus YAML loading plus the `new_cls.__name__ in schema`
check (each schema file in the repository holds exactly the properties table
of the class it belongs to). -/
structure Env where
  classes : List (String × ConfigClass)
  schemas : List (String × Schema)

def Env.findClass (env : Env) (n : String) : Option ConfigClass :=
  (env.classes.find? (fun p => p.1 = n)).map Prod.snd

def Env.findSchema (env : Env) (n : String) : Option Schema :=
  (env.schemas.find? (fun p => p.1 = n)).map Prod.snd

/-- Construction-time failures.  Python raises `ValueError` (or the noted
exception) with a message identifying class and field; the constructors keep
that identifying information. -/
inductive CreateErr where
  | outOfFuel
  | classNotFound (cls : String)
  | schemaNotFound (cls : String)
  | unknownVariant (discriminator : Value)
  | fieldMissingFromSchema (cls f : String)
  | schemaEntryIncomplete (cls f : String)
  | attrNotFoundInSchema (cls f : String)
  | typeMismatch (cls f : String)
  | requiredStatusMismatch (cls f : String)
  | outOfRange (cls f : String)
  | notInEnum (cls f : String)
  | missingRequired (cls f : String)
  | keyErrorRequired (cls f : String)
  | typeErrorCompare (cls f : String)
  | typeErrorIssubclass (cls f : String)
  | instantiationError (cls f : String)
  | badChildData (cls f : String)
  | moduleNotFound (module : String)
deriving DecidableEq, Repr

/-- `BACKEND_CONFIGS` of `backend_patterns.py`. -/
def BACKEND_CONFIGS : List (String × String) :=
  [("OpenAI", "OpenAIBackendConfig"),
   ("HFTGI", "HFTGIBackendConfig"),
   ("Oobabooga", "OobaboogaBackendConfig")]

/-- `INTERFACE_CONFIGS` of `interfaces/patterns.py`. -/
def INTERFACE_CONFIGS : List (String × String) :=
  [("api", "APIInterfaceConfig"),
   ("cli", "CLIInterfaceConfig"),
   ("webui", "WebInterfaceConfig")]

/-- `BACKEND_CLASS_MODULES` of `backend_patterns.py`. -/
def BACKEND_CLASS_MODULES : List (String × String) :=
  [("OpenAI", "modules.generation.backends.openai"),
   ("HFTGI", "modules.generation.backends.hftgi"),
   ("Oobabooga", "modules.generation.backends.oobabooga")]

/-- `INTERFACE_CLASS_MODULES` of `interfaces/patterns.py`. -/
def INTERFACE_CLASS_MODULES : List (String × String) :=
  [("api", "modules.interfaces.api"),
   ("cli", "modules.interfaces.cli"),
   ("webui", "modules.interfaces.webui")]

/-- The modules referenced by the two variant tables that are actually
present in the repository, with the config class each defines:
`backends/openai.py`, `backends/oobabooga.py`, `interfaces/api.py`,
`interfaces/cli.py`, `interfaces/webui.py`.  `backends/hftgi.py` does not
exist in the repository, although both `BACKEND_CLASS_MODULES` and
`llm_patterns.py`'s imports reference it. -/
def PRESENT_MODULES : List (String × String) :=
  [("modules.generation.backends.openai", "OpenAIBackendConfig"),
   ("modules.generation.backends.oobabooga", "OobaboogaBackendConfig"),
   ("modules.interfaces.api", "APIInterfaceConfig"),
   ("modules.interfaces.cli", "CLIInterfaceConfig"),
   ("modules.interfaces.webui", "WebInterfaceConfig")]

/-- `importlib.import_module(module)` followed by `getattr(module, cls)`:
returns the class when the module file exists in the repository and defines
the class, and raises `ModuleNotFoundError` when the module is absent. -/
def importClass (module clsName : String) : Except CreateErr String :=
  if PRESENT_MODULES.contains (module, clsName) then .ok clsName
  else .error (.moduleNotFound module)

/-- First-match lookup in the string variant tables. -/
def tblLookup : List (String × String) → String → Option String
  | [], _ => none
  | (k', v) :: rest, k => if k' = k then some v else tblLookup rest k

/-- The discriminator value `BackendConfig.get_class` reads:
`backend_config_type` from a truthy `parent_data`, else the `"OpenAI"`
default. -/
def backendDisc (parent_data : Data) : Value :=
  if parent_data.isTruthy then
    match parent_data.lookupKey "backend_config_type" with
    | some v => v
    | none => .vStr "OpenAI"
  else .vStr "OpenAI"

/-- `BackendConfig.get_class` (`backend_patterns.py`): reads
`backend_config_type` from `parent_data` (if `parent_data` is truthy and has
the key), defaulting to `"OpenAI"`; an unmapped discriminator raises
`ValueError`; a mapped discriminator is resolved by importing the mapped
module and fetching the class from it — which, for `"HFTGI"`, raises
`ModuleNotFoundError` because `backends/hftgi.py` is absent from the
repository.  (The second table lookup cannot miss: the two tables share
their keys.) -/
def backendConfig_get_class (parent_data : Data) : Except CreateErr String :=
  match backendDisc parent_data with
  | .vStr s =>
    match tblLookup BACKEND_CONFIGS s, tblLookup BACKEND_CLASS_MODULES s with
    | some clsName, some module => importClass module clsName
    | some _, none => .error (.moduleNotFound s)
    | none, _ => .error (.unknownVariant (.vStr s))
  | v => .error (.unknownVariant v)

/-- The discriminator value `InterfaceConfig.get_class` reads:
`interface_type` from a truthy `parent_data`, else the `"CLI"` default. -/
def interfaceDisc (parent_data : Data) : Value :=
  if parent_data.isTruthy then
    match parent_data.lookupKey "interface_type" with
    | some v => v
    | none => .vStr "CLI"
  else .vStr "CLI"

/-- `InterfaceConfig.get_class` (`interfaces/patterns.py`): reads
`interface_type` from `parent_data`, defaulting to `"CLI"`; an unmapped
discriminator raises `ValueError`; a mapped discriminator is resolved by
importing the mapped module (all three interface modules exist in the
repository).  Note the mapping keys are the lowercase `"api"`, `"cli"`,
`"webui"`. -/
def interfaceConfig_get_class (parent_data : Data) : Except CreateErr String :=
  match interfaceDisc parent_data with
  | .vStr s =>
    match tblLookup INTERFACE_CONFIGS s, tblLookup INTERFACE_CLASS_MODULES s with
    | some clsName, some module => importClass module clsName
    | some _, none => .error (.moduleNotFound s)
    | none, _ => .error (.unknownVariant (.vStr s))
  | v => .error (.unknownVariant v)

/-- Step 1 of `BaseConfig.create`: `new_cls = cls.get_class(data, parent_data)`.
`BaseConfig.get_class` returns `cls`; the two variant families override it
(and their subclasses inherit the override). -/
def resolveClass (env : Env) (cls : String) (parent_data : Data) :
    Except CreateErr String :=
  match env.findClass cls with
  | none => .error (.classNotFound cls)
  | some cdef =>
    match cdef.family with
    | none => .ok cls
    | some .backend => backendConfig_get_class parent_data
    | some .interface => interfaceConfig_get_class parent_data

/-- The `type_mapping` table plus the `isinstance`/`issubclass` fallthrough of
`BaseConfig.is_type_match`, specialized to an atomic (non-union) annotation.
An unrecognized schema type maps to `object`, and `isinstance(t, object)` is
true for every `t`, so the fallthrough matches everything.  The `issubclass`
`TypeError` that Python would raise for a typing alias compared against a
recognized primitive type is modelled as a non-match (no claim touches it). -/
def matchBase (schema_type : String) (a : PyAtom) : Bool :=
  if schema_type = "string" then a == .pstr
  else if schema_type = "integer" || schema_type = "int" then a == .pint
  else if schema_type = "float" then a == .pfloat
  else if schema_type = "object" then
    -- issubclass(t, (dict, BaseModel))
    a == .pdict || (match a with | .pconfig _ => true | .pbaseModel => true | _ => false)
  else true

/-- `BaseConfig.is_type_match` on an atomic annotation: the special branch for
`schema_type in ['dict', 'object']` with `python_type == Dict`, then the
`type_mapping` fallthrough. -/
def isTypeMatchAtom (schema_type : String) (a : PyAtom) : Bool :=
  if (schema_type = "dict" || schema_type = "object") && a == .pdictAlias then true
  else matchBase schema_type a

/-- `BaseConfig.is_type_match` (`config.py:326-367`): a union containing
`NoneType` matches if *any* non-None member matches; a union without
`NoneType` matches only if *all* members match; atoms go through the
`type_mapping` fallthrough. -/
def is_type_match (schema_type : String) (python_type : PyType) : Bool :=
  match python_type with
  | .union ts =>
    if ts.contains .pnone then
      (ts.filter (fun t => t != .pnone)).any (isTypeMatchAtom schema_type)
    else ts.all (isTypeMatchAtom schema_type)
  | .atom a => isTypeMatchAtom schema_type a

/-- `BaseConfig.ensure_all_fields_present_in_schema` (`config.py:265-295`):
every class field must be a key of the schema property table
(`fieldMissingFromSchema`), and its entry must carry both `required` and
`type` (`schemaEntryIncomplete`); the reverse direction is not checked. -/
def ensure_all_fields_present_in_schema (cname : String)
    (flds : List FieldDecl) (props : Schema) : Except CreateErr Unit :=
  match flds with
  | [] => .ok ()
  | fd :: rest =>
    match slookup props fd.name with
    | none => .error (.fieldMissingFromSchema cname fd.name)
    | some e =>
      if e.required.isNone then .error (.schemaEntryIncomplete cname fd.name)
      else if e.type.isNone then .error (.schemaEntryIncomplete cname fd.name)
      else ensure_all_fields_present_in_schema cname rest props

/-- `BaseConfig.validate_schema_with_class` (`config.py:297-324`): for every
class field, if the schema entry declares `type` it must `is_type_match` the
annotation, and if it declares `required` it must equal pydantic's
`is_required()` (no pydantic default). -/
def validate_schema_with_class (cname : String)
    (flds : List FieldDecl) (props : Schema) : Except CreateErr Unit :=
  match flds with
  | [] => .ok ()
  | fd :: rest =>
    match slookup props fd.name with
    | none => .error (.attrNotFoundInSchema cname fd.name)
    | some e =>
      match e.type with
      | some st =>
        if is_type_match st fd.ty then
          match e.required with
          | some r =>
            if fd.pydDefault.isNone == r then validate_schema_with_class cname rest props
            else .error (.requiredStatusMismatch cname fd.name)
          | none => validate_schema_with_class cname rest props
        else .error (.typeMismatch cname fd.name)
      | none =>
        match e.required with
        | some r =>
          if fd.pydDefault.isNone == r then validate_schema_with_class cname rest props
          else .error (.requiredStatusMismatch cname fd.name)
        | none => validate_schema_with_class cname rest props

/-- The checks `validate_fields` runs on one schema property when the field
is present in `data`: `minimum`, then `maximum`, then `enum`.  Python's
`value < field_info['minimum']` raises `TypeError` on a non-numeric value. -/
def checkPresentV (cname f : String) (e : SchemaEntry) (v : Value) :
    Except CreateErr Unit :=
  let enumStep : Except CreateErr Unit :=
    match e.enum with
    | some l => if l.containsV v then .ok () else .error (.notInEnum cname f)
    | none => .ok ()
  let maxStep : Except CreateErr Unit :=
    match e.maximum with
    | some m =>
      match v with
      | .vInt n => if n > m then .error (.outOfRange cname f) else enumStep
      | _ => .error (.typeErrorCompare cname f)
    | none => enumStep
  match e.minimum with
  | some m =>
    match v with
    | .vInt n => if n < m then .error (.outOfRange cname f) else maxStep
    | _ => .error (.typeErrorCompare cname f)
  | none => maxStep

/-- The checks `validate_fields` runs on one schema property when the field
is absent from `data`: `field_info['required']` (a `KeyError` if the entry
has no `required` key), then — for required fields — the
`issubclass(merged_annotations[f], BaseConfig)` test, which continues for
`BaseConfig` annotations, raises `ValueError(f'{f} is required')` for proper
class annotations, raises `TypeError` for union/alias annotations (they are
not classes), and only logs when the field has no annotation at all. -/
def checkAbsentV (cname f : String) (flds : List FieldDecl) (e : SchemaEntry) :
    Except CreateErr Unit :=
  match e.required with
  | none => .error (.keyErrorRequired cname f)
  | some req =>
    if req then
      match findFieldTy flds f with
      | some (.atom (.pconfig _)) => .ok ()
      | some (.atom .pdictAlias) => .error (.typeErrorIssubclass cname f)
      | some (.union _) => .error (.typeErrorIssubclass cname f)
      | some (.atom _) => .error (.missingRequired cname f)
      | none => .ok ()
    else .ok ()

/-- The check `validate_fields` runs on one schema property. -/
def checkFieldV (cname : String) (flds : List FieldDecl) (f : String)
    (e : SchemaEntry) (data : Data) : Except CreateErr Unit :=
  match data.lookupKey f with
  | some v => checkPresentV cname f e v
  | none => checkAbsentV cname f flds e

/-- `BaseConfig.validate_fields` (`config.py:370-430`), the
`@model_validator(mode='before')` run by pydantic at instantiation: every
schema property is checked in YAML order, first exception wins. -/
def validate_fields (cname : String) (flds : List FieldDecl)
    (props : Schema) (data : Data) : Except CreateErr Unit :=
  match props with
  | [] => .ok ()
  | (f, e) :: rest =>
    match checkFieldV cname flds f e data with
    | .ok _ => validate_fields cname flds rest data
    | .error er => .error er

/-- The default-merge loop of `create` (`config.py:220-225`): for every
schema property, in order, inject its `default` when the key is absent. -/
def mergeDefaults : Schema → Data → Data
  | [], d => d
  | (k, e) :: rest, d =>
    mergeDefaults rest
      (if (d.lookupKey k).isNone then
        match e.default with
        | some v => d.setKey k v
        | none => d
      else d)

/-- Pydantic acceptance of a value for one atomic annotation (shape check;
pydantic's lax string-to-number coercions are not exercised by the engine
and are not modelled). -/
def atomAccepts (env : Env) : PyAtom → Value → Bool
  | .pstr, .vStr _ => true
  | .pint, .vInt _ => true
  | .pfloat, .vInt _ => true
  | .pdict, .vDict _ => true
  | .pdictAlias, .vDict _ => true
  | .plist, .vList _ => true
  | .pnone, .vNone => true
  | .pconfig c, .vNode n _ =>
    c = n ||
      (match env.findClass n with
       | some cd => cd.supers.contains c
       | none => false)
  | .pbaseModel, .vNode _ _ => true
  | .pother _, _ => true
  | _, _ => false

/-- Pydantic acceptance of a value for an annotation (unions accept when any
member accepts). -/
def tyAccepts (env : Env) : PyType → Value → Bool
  | .atom a, v => atomAccepts env a v
  | .union ts, v => ts.any (fun a => atomAccepts env a v)

/-- Pydantic field assembly inside `new_cls(**data)`: each model field takes
its value from `data` (extra keys of `data` are ignored, pydantic's default
`extra='ignore'`), or its pydantic default; a shape-incompatible value or a
missing field with no default raises `ValidationError`. -/
def instFields (env : Env) (cname : String) :
    List FieldDecl → Data → Except CreateErr ValueMap
  | [], _ => .ok .nil
  | fd :: rest, data =>
    match data.lookupKey fd.name with
    | some v =>
      if tyAccepts env fd.ty v then
        match instFields env cname rest data with
        | .ok m => .ok (.cons fd.name v m)
        | .error e => .error e
      else .error (.instantiationError cname fd.name)
    | none =>
      match fd.pydDefault with
      | some dv =>
        match instFields env cname rest data with
        | .ok m => .ok (.cons fd.name dv m)
        | .error e => .error e
      | none => .error (.instantiationError cname fd.name)

/-- `new_cls(**data)` after `validate_fields` has passed: the resulting
pydantic instance, as a `vNode`. -/
def instantiate (env : Env) (cname : String) (flds : List FieldDecl)
    (data : Data) : Except CreateErr Value :=
  (instFields env cname flds data).map (Value.vNode cname)

/-- `data.get(field, {})` destined for a child `create` call: an absent key
or an explicit `None` yields the empty document (`create` replaces a `None`
`data` argument by `{}`); a present dict is passed through; anything else
would make the child `create` fail. -/
def toChildData (cname f : String) : Option Value → Except CreateErr Data
  | none => .ok .nil
  | some (.vDict d) => .ok d
  | some .vNone => .ok .nil
  | some _ => .error (.badChildData cname f)

/-- The recursion loop of `create` (`config.py:244-254`): for every field in
annotation order whose static type is a `BaseConfig` subclass, construct the
child from the field's sub-document with the *current* `data` (including
already-substituted siblings) as the child's `parent_data`, and substitute
the constructed node into `data`. -/
def createChildren (env : Env)
    (recCreate : String → Data → Data → Except CreateErr (Value × Data))
    (cname : String) : List FieldDecl → Data → Except CreateErr Data
  | [], data => .ok data
  | fd :: rest, data =>
    match fd.ty with
    | .atom (.pconfig childCls) =>
      match toChildData cname fd.name (data.lookupKey fd.name) with
      | .error e => .error e
      | .ok cdata =>
        match recCreate childCls cdata data with
        | .error e => .error e
        | .ok (node, _) =>
          createChildren env recCreate cname rest (data.setKey fd.name node)
    | _ => createChildren env recCreate cname rest data

/-- The tail of one `create` level, after the concrete class is resolved,
its schema loaded, the consistency checks passed, and the schema defaults
merged: recursively construct and substitute node-typed fields, validate,
and instantiate. -/
def createRest (env : Env)
    (recCreate : String → Data → Data → Except CreateErr (Value × Data))
    (rn : String) (cdef : ConfigClass) (props : Schema) (d1 : Data) :
    Except CreateErr (Value × Data) :=
  match createChildren env recCreate rn cdef.fields d1 with
  | .error er => .error er
  | .ok d2 =>
    match validate_fields rn cdef.fields props d2 with
    | .error er => .error er
    | .ok _ =>
      match instantiate env rn cdef.fields d2 with
      | .error er => .error er
      | .ok node => .ok (node, d2)

/-- One level of `BaseConfig.create` (`config.py:167-262`), parameterized by
the function used for recursive child construction: resolve the concrete
class, load its schema, run the two consistency checks, merge schema
defaults into `data`, recursively construct and substitute node-typed
fields, then instantiate (which runs `validate_fields` first).  The final
state of the in-place-mutated `data` dict is returned alongside the node. -/
def createStep (env : Env)
    (recCreate : String → Data → Data → Except CreateErr (Value × Data))
    (cls : String) (data parent_data : Data) :
    Except CreateErr (Value × Data) :=
  match resolveClass env cls parent_data with
  | .error er => .error er
  | .ok rn =>
    match env.findClass rn with
    | none => .error (.classNotFound rn)
    | some cdef =>
      match env.findSchema rn with
      | none => .error (.schemaNotFound rn)
      | some props =>
        match ensure_all_fields_present_in_schema rn cdef.fields props with
        | .error er => .error er
        | .ok _ =>
          match validate_schema_with_class rn cdef.fields props with
          | .error er => .error er
          | .ok _ => createRest env recCreate rn cdef props (mergeDefaults props data)

/-- `BaseConfig.create`, with a fuel bound on recursion depth (the Python
recursion is bounded by the static class nesting). -/
def create (env : Env) : Nat → String → Data → Data →
    Except CreateErr (Value × Data)
  | 0, _, _, _ => .error .outOfFuel
  | fuel + 1, cls, data, parent_data =>
    createStep env (create env fuel) cls data parent_data

/-- The loop of `to_dict` that appends, in schema order, a `None` entry for
every schema property the dumped dict lacks (`config.py:93-97`,
`getattr(obj, key, None)` on attributes the instance does not have). -/
def addExtras : Schema → ValueMap → ValueMap
  | [], m => m
  | (k, _) :: rest, m =>
    addExtras rest (if (m.lookupKey k).isNone then m.setKey k .vNone else m)

mutual

/-- `BaseConfig.to_dict` (`config.py:65-107`): a node becomes a plain dict of
its recursively serialized fields, padded with `None` for schema properties
the instance lacks; dicts and lists are serialized element-wise; primitives
are returned unchanged.  (The `seen` cycle check is dropped: constructed
trees are acyclic.) -/
def to_dict (env : Env) : Value → Value
  | .vNone => .vNone
  | .vStr s => .vStr s
  | .vInt n => .vInt n
  | .vList xs => .vList (toDictList env xs)
  | .vDict d => .vDict (toDictMap env d)
  | .vNode cls fs =>
    match env.findSchema cls with
    | some props => .vDict (addExtras props (toDictMap env fs))
    | none => .vDict (toDictMap env fs)

def toDictList (env : Env) : ValueList → ValueList
  | .nil => .nil
  | .cons v rest => .cons (to_dict env v) (toDictList env rest)

def toDictMap (env : Env) : ValueMap → ValueMap
  | .nil => .nil
  | .cons k v rest => .cons k (to_dict env v) (toDictMap env rest)

end

/-- The serialized document produced by `to_dict` on a node, as the `data`
dict a fresh `create` call would receive. -/
def serializedData (env : Env) (node : Value) : Data :=
  match to_dict env node with
  | .vDict d => d
  | _ => .nil

/-! ## Basic lemmas about the validator -/

/-- `validate_fields` succeeds exactly when the per-property check succeeds
for every schema property: the loop is fail-fast, but each property's check
reads only that property's entry and value. -/
theorem validate_fields_ok_iff (cname : String) (flds : List FieldDecl)
    (data : Data) :
    ∀ props : Schema,
      validate_fields cname flds props data = .ok () ↔
        ∀ fe ∈ props, checkFieldV cname flds fe.1 fe.2 data = .ok () := by
  intro props
  induction props with
  | nil => simp [validate_fields]
  | cons fe rest ih =>
    obtain ⟨f, e⟩ := fe
    constructor
    · intro h fe' hmem
      cases hc : checkFieldV cname flds f e data with
      | error er => simp [validate_fields, hc] at h
      | ok u =>
        rcases List.mem_cons.mp hmem with h1 | h1
        · cases u; simpa [h1] using hc
        · cases u
          simp only [validate_fields, hc] at h
          exact (ih.mp h) fe' h1
    · intro h
      have hc : checkFieldV cname flds f e data = .ok () :=
        h (f, e) (List.mem_cons_self _ _)
      simp only [validate_fields, hc]
      exact ih.mpr (fun fe' hmem => h fe' (List.mem_cons_of_mem _ hmem))

/-! ## C1: variant resolution -/

/-- C1 (code bug): evaluation of both `get_class` resolvers.  For the
LLM-backend family the mapped keys `"OpenAI"` and `"Oobabooga"` resolve to
their mapped config classes, an unmapped discriminator fails, and an absent
discriminator resolves to the OpenAI default — but the mapped key `"HFTGI"`
does **not** return the mapped `HFTGIBackendConfig`: the module
`modules.generation.backends.hftgi` it maps to is absent from the
repository, so `get_class` raises `ModuleNotFoundError`.  For the interface
family the mapped lowercase keys resolve and an unmapped discriminator
fails, but an *absent* discriminator does **not** resolve to the documented
CLI default: the fallback string `"CLI"` is not a key of the lowercase
mapping `api`/`cli`/`webui`, so `get_class` raises `ValueError` instead of
returning `CLIInterfaceConfig`. -/
theorem C1_variant_resolution_eval :
    backendConfig_get_class
        (.cons "backend_config_type" (.vStr "OpenAI") .nil) = .ok "OpenAIBackendConfig"
  ∧ backendConfig_get_class
        (.cons "backend_config_type" (.vStr "HFTGI") .nil)
      = .error (.moduleNotFound "modules.generation.backends.hftgi")
  ∧ backendConfig_get_class
        (.cons "backend_config_type" (.vStr "Oobabooga") .nil) = .ok "OobaboogaBackendConfig"
  ∧ backendConfig_get_class
        (.cons "backend_config_type" (.vStr "Bogus") .nil)
      = .error (.unknownVariant (.vStr "Bogus"))
  ∧ backendConfig_get_class .nil = .ok "OpenAIBackendConfig"
  ∧ backendConfig_get_class (.cons "other_key" (.vInt 1) .nil) = .ok "OpenAIBackendConfig"
  ∧ interfaceConfig_get_class
        (.cons "interface_type" (.vStr "cli") .nil) = .ok "CLIInterfaceConfig"
  ∧ interfaceConfig_get_class
        (.cons "interface_type" (.vStr "api") .nil) = .ok "APIInterfaceConfig"
  ∧ interfaceConfig_get_class
        (.cons "interface_type" (.vStr "webui") .nil) = .ok "WebInterfaceConfig"
  ∧ interfaceConfig_get_class
        (.cons "interface_type" (.vStr "Bogus") .nil)
      = .error (.unknownVariant (.vStr "Bogus"))
  ∧ interfaceConfig_get_class .nil = .error (.unknownVariant (.vStr "CLI"))
  ∧ interfaceConfig_get_class (.cons "other_key" (.vInt 1) .nil)
      = .error (.unknownVariant (.vStr "CLI")) := by
  refine ⟨rfl, rfl, rfl, rfl, rfl, rfl, rfl, rfl, rfl, rfl, rfl, rfl⟩

/-! ## C10: unrecognized schema type names match everything -/

/-- C10: a schema `type` string outside the recognized vocabulary falls back
to `object` in `type_mapping.get`, and `isinstance(python_type, object)` is
true for every class, so `is_type_match` returns true against every static
annotation — a misspelled schema type can never cause a `TypeMismatch`. -/
theorem C10_unrecognized_schema_type_matches_all (s : String)
    (hs : s ∉ ["string", "integer", "int", "float", "object", "dict"]) :
    ∀ a : PyAtom, is_type_match s (.atom a) = true := by
  intro a
  simp only [List.mem_cons, List.mem_singleton, not_or] at hs
  obtain ⟨h1, h2, h3, h4, h5, h6⟩ := hs
  simp [is_type_match, isTypeMatchAtom, matchBase, h1, h2, h3, h4, h5, h6]

/-- Witness for C10 at the concrete misspelled type `"strng"`. -/
theorem C10_witness :
    "strng" ∉ ["string", "integer", "int", "float", "object", "dict"]
  ∧ is_type_match "strng" (.atom .pint) = true :=
  ⟨by decide, C10_unrecognized_schema_type_matches_all "strng" (by decide) .pint⟩

/-! ## C3: union/Optional type matching -/

/-- C3 counterexample: `Optional[Union[int, str]]`, i.e. the flattened
`Union[int, str, NoneType]`, matches schema type `"string"` even though the
member `int` does not match `"string"` — refuting "a union matches only if
all member types individually match".  (`is_type_match` cannot consult the
schema's `required` flag at all: it receives only the type name and the
annotation, so the claimed not-required escape hatch does not exist.) -/
theorem C3_counterexample :
    is_type_match "string" (.union [.pint, .pstr, .pnone]) = true
  ∧ is_type_match "string" (.atom .pint) = false := by
  refine ⟨rfl, rfl⟩

/-- C3 amended: a union *without* `NoneType` matches a schema type iff all
its members match; a union *with* `NoneType` (an `Optional`) matches iff at
least one non-None member matches, with the schema's required flag playing
no role. -/
theorem C3_amended_union_matching (s : String) (ts : List PyAtom) :
    (PyAtom.pnone ∉ ts →
      (is_type_match s (.union ts) = true ↔
        ∀ a ∈ ts, isTypeMatchAtom s a = true))
  ∧ (PyAtom.pnone ∈ ts →
      (is_type_match s (.union ts) = true ↔
        ∃ a ∈ ts, a ≠ .pnone ∧ isTypeMatchAtom s a = true)) := by
  constructor
  · intro hnone
    have hc : ts.contains .pnone = false := by
      simpa using hnone
    simp only [is_type_match, hc, Bool.false_eq_true, if_false, List.all_eq_true]
  · intro hmem
    have hc : ts.contains .pnone = true := by
      simpa using hmem
    simp only [is_type_match, hc, if_true, List.any_eq_true, List.mem_filter,
      bne_iff_ne, ne_eq]
    constructor
    · rintro ⟨a, ⟨ha, hne⟩, hmatch_a⟩
      exact ⟨a, ha, hne, hmatch_a⟩
    · rintro ⟨a, ha, hne, hmatch_a⟩
      exact ⟨a, ⟨ha, hne⟩, hmatch_a⟩

/-- Witness for C3 amended at `Union[int, str, NoneType]` vs `"string"`. -/
theorem C3_amended_witness :
    PyAtom.pnone ∈ ([.pint, .pstr, .pnone] : List PyAtom)
  ∧ (is_type_match "string" (.union [.pint, .pstr, .pnone]) = true ↔
      ∃ a ∈ ([.pint, .pstr, .pnone] : List PyAtom),
        a ≠ .pnone ∧ isTypeMatchAtom "string" a = true) :=
  ⟨by decide, (C3_amended_union_matching "string" [.pint, .pstr, .pnone]).2 (by decide)⟩

/-! ## C5: one-directional consistency check -/

/-- C5: `ensure_all_fields_present_in_schema` succeeds exactly when every
declared class field has a schema entry carrying both `required` and `type`
(so a declared field missing from the schema, or an incomplete entry, always
fails, while extra schema keys the class does not declare can never cause a
failure); moreover a `fieldMissingFromSchema` error always names a declared
field absent from the schema, and a `schemaEntryIncomplete` error always
names a declared field whose entry lacks `required` or `type`. -/
theorem C5_consistency_check (cname : String) (flds : List FieldDecl)
    (props : Schema) :
    (ensure_all_fields_present_in_schema cname flds props = .ok () ↔
      ∀ fd ∈ flds, ∃ e, slookup props fd.name = some e ∧
        e.required ≠ none ∧ e.type ≠ none)
  ∧ (∀ c f,
      ensure_all_fields_present_in_schema cname flds props
          = .error (.fieldMissingFromSchema c f) →
      c = cname ∧ slookup props f = none ∧ ∃ fd ∈ flds, fd.name = f)
  ∧ (∀ c f,
      ensure_all_fields_present_in_schema cname flds props
          = .error (.schemaEntryIncomplete c f) →
      c = cname ∧ (∃ e, slookup props f = some e ∧
        (e.required = none ∨ e.type = none)) ∧ ∃ fd ∈ flds, fd.name = f) := by
  induction flds with
  | nil =>
    refine ⟨by simp [ensure_all_fields_present_in_schema], ?_, ?_⟩
    · intro c f h
      simp [ensure_all_fields_present_in_schema] at h
    · intro c f h
      simp [ensure_all_fields_present_in_schema] at h
  | cons fd rest ih =>
    obtain ⟨ihOk, ihMissing, ihIncomplete⟩ := ih
    cases hsl : slookup props fd.name with
    | none =>
      have hstep : ensure_all_fields_present_in_schema cname (fd :: rest) props
          = .error (.fieldMissingFromSchema cname fd.name) := by
        simp [ensure_all_fields_present_in_schema, hsl]
      refine ⟨?_, ?_, ?_⟩
      · rw [hstep]
        constructor
        · intro h
          exact Except.noConfusion h
        · intro h
          obtain ⟨e, he, -, -⟩ := h fd (List.mem_cons_self _ _)
          rw [hsl] at he
          exact Option.noConfusion he
      · intro c f h
        rw [hstep] at h
        injection h with h'
        injection h' with h1 h2
        subst h1
        subst h2
        exact ⟨rfl, hsl, fd, List.mem_cons_self _ _, rfl⟩
      · intro c f h
        rw [hstep] at h
        injection h with h'
        exact CreateErr.noConfusion h'
    | some e =>
      cases hr : e.required with
      | none =>
        have hstep : ensure_all_fields_present_in_schema cname (fd :: rest) props
            = .error (.schemaEntryIncomplete cname fd.name) := by
          simp [ensure_all_fields_present_in_schema, hsl, hr]
        refine ⟨?_, ?_, ?_⟩
        · rw [hstep]
          constructor
          · intro h
            exact Except.noConfusion h
          · intro h
            obtain ⟨e', he', hreq, -⟩ := h fd (List.mem_cons_self _ _)
            rw [hsl] at he'
            injection he' with he'
            rw [← he'] at hreq
            exact absurd hr hreq
        · intro c f h
          rw [hstep] at h
          injection h with h'
          exact CreateErr.noConfusion h'
        · intro c f h
          rw [hstep] at h
          injection h with h'
          injection h' with h1 h2
          subst h1
          subst h2
          exact ⟨rfl, ⟨e, hsl, Or.inl hr⟩, fd, List.mem_cons_self _ _, rfl⟩
      | some r =>
        cases ht : e.type with
        | none =>
          have hstep : ensure_all_fields_present_in_schema cname (fd :: rest) props
              = .error (.schemaEntryIncomplete cname fd.name) := by
            simp [ensure_all_fields_present_in_schema, hsl, hr, ht]
          refine ⟨?_, ?_, ?_⟩
          · rw [hstep]
            constructor
            · intro h
              exact Except.noConfusion h
            · intro h
              obtain ⟨e', he', -, hty⟩ := h fd (List.mem_cons_self _ _)
              rw [hsl] at he'
              injection he' with he'
              rw [← he'] at hty
              exact absurd ht hty
          · intro c f h
            rw [hstep] at h
            injection h with h'
            exact CreateErr.noConfusion h'
          · intro c f h
            rw [hstep] at h
            injection h with h'
            injection h' with h1 h2
            subst h1
            subst h2
            exact ⟨rfl, ⟨e, hsl, Or.inr ht⟩, fd, List.mem_cons_self _ _, rfl⟩
        | some t =>
          have hstep :
              ensure_all_fields_present_in_schema cname (fd :: rest) props
                = ensure_all_fields_present_in_schema cname rest props := by
            simp [ensure_all_fields_present_in_schema, hsl, hr, ht]
          refine ⟨?_, ?_, ?_⟩
          · rw [hstep, ihOk]
            constructor
            · intro h fd' hmem
              rcases List.mem_cons.mp hmem with h1 | h1
              · subst h1
                exact ⟨e, hsl, by simp [hr], by simp [ht]⟩
              · exact h fd' h1
            · intro h fd' hmem
              exact h fd' (List.mem_cons_of_mem _ hmem)
          · intro c f h
            rw [hstep] at h
            obtain ⟨hc, hn, fd', hmem, hf⟩ := ihMissing c f h
            exact ⟨hc, hn, fd', List.mem_cons_of_mem _ hmem, hf⟩
          · intro c f h
            rw [hstep] at h
            obtain ⟨hc, he', fd', hmem, hf⟩ := ihIncomplete c f h
            exact ⟨hc, he', fd', List.mem_cons_of_mem _ hmem, hf⟩

/-- Witness for C5: a two-field class against a schema that has both fields
complete plus an extra key the class does not declare — the check passes. -/
theorem C5_witness :
    (∀ fd ∈ [⟨"a", .atom .pstr, none⟩, ⟨"b", .atom .pint, some (.vInt 0)⟩],
      ∃ e, slookup [("a", { required := some true, type := some "string" }),
                    ("b", { required := some false, type := some "integer" }),
                    ("extra", { required := some false, type := some "string" })]
            (FieldDecl.name fd) = some e ∧ e.required ≠ none ∧ e.type ≠ none)
  ∧ ensure_all_fields_present_in_schema "C"
      [⟨"a", .atom .pstr, none⟩, ⟨"b", .atom .pint, some (.vInt 0)⟩]
      [("a", { required := some true, type := some "string" }),
       ("b", { required := some false, type := some "integer" }),
       ("extra", { required := some false, type := some "string" })] = .ok () :=
  ⟨by decide,
   (C5_consistency_check "C" _ _).1.mpr (by decide)⟩

/-! ## C2: required-field enforcement during validation -/

/-- C2 amended: for a schema property declared `required: true` that is
absent from the (default-merged) data, `validate_fields` tolerates the
absence when the field's class annotation is a `BaseConfig` subclass **or
when the class declares no annotation for the field at all** (the code only
logs in that case); it fails whenever the field is declared with a proper
non-node class annotation.  So a required absent field causes a validation
error only if the class actually declares it with a non-node type. -/
theorem C2_required_absent_fields (cname : String) (flds : List FieldDecl)
    (props : Schema) (data : Data) :
    (validate_fields cname flds props data = .ok () →
      ∀ f e, (f, e) ∈ props → e.required = some true →
        data.lookupKey f = none →
        findFieldTy flds f = none ∨
          ∃ c, findFieldTy flds f = some (.atom (.pconfig c)))
  ∧ (∀ f e a, (f, e) ∈ props → e.required = some true →
      data.lookupKey f = none →
      findFieldTy flds f = some (.atom a) → (∀ c, a ≠ .pconfig c) →
      validate_fields cname flds props data ≠ .ok ()) := by
  constructor
  · intro h f e hmem hreq habs
    have hc : checkFieldV cname flds f e data = .ok () :=
      (validate_fields_ok_iff cname flds data props).mp h (f, e) hmem
    rw [checkFieldV, habs, checkAbsentV, hreq] at hc
    simp only [if_true] at hc
    cases hty : findFieldTy flds f with
    | none => exact Or.inl rfl
    | some ty =>
      rw [hty] at hc
      cases ty with
      | union ts => exact Except.noConfusion hc
      | atom a =>
        cases a with
        | pconfig c => exact Or.inr ⟨c, rfl⟩
        | pstr => exact Except.noConfusion hc
        | pint => exact Except.noConfusion hc
        | pfloat => exact Except.noConfusion hc
        | pdict => exact Except.noConfusion hc
        | plist => exact Except.noConfusion hc
        | pnone => exact Except.noConfusion hc
        | pdictAlias => exact Except.noConfusion hc
        | pbaseModel => exact Except.noConfusion hc
        | pother n => exact Except.noConfusion hc
  · intro f e a hmem hreq habs hty hnot h
    have hc : checkFieldV cname flds f e data = .ok () :=
      (validate_fields_ok_iff cname flds data props).mp h (f, e) hmem
    rw [checkFieldV, habs, checkAbsentV, hreq] at hc
    simp only [if_true] at hc
    rw [hty] at hc
    cases a with
    | pconfig c => exact hnot c rfl
    | pstr => exact Except.noConfusion hc
    | pint => exact Except.noConfusion hc
    | pfloat => exact Except.noConfusion hc
    | pdict => exact Except.noConfusion hc
    | plist => exact Except.noConfusion hc
    | pnone => exact Except.noConfusion hc
    | pdictAlias => exact Except.noConfusion hc
    | pbaseModel => exact Except.noConfusion hc
    | pother n => exact Except.noConfusion hc

/-- C2 counterexample: a schema property `x` declared `required: true` with a
non-node type `string`, absent from the data, yet `validate_fields`
succeeds — because the class does not declare `x`, the code takes the
"no annotation" branch and only logs.  This refutes "every required
non-node field absent from the data causes a validation error". -/
theorem C2_counterexample :
    validate_fields "Backend" []
        [("x", { required := some true, type := some "string" })] .nil = .ok ()
  ∧ ValueMap.lookupKey .nil "x" = none
  ∧ findFieldTy [] "x" = none := by
  refine ⟨rfl, rfl, rfl⟩

/-- The schema entry used by the C2 witness. -/
def c2EntryW : SchemaEntry := { required := some true, type := some "string" }

/-- The concrete schema used by the C2 witness. -/
def c2SchemaW : Schema := [("y", c2EntryW)]

/-- The concrete field list used by the C2 witness. -/
def c2FldsW : List FieldDecl := [⟨"y", .atom .pstr, none⟩]

/-- Witness for C2 amended: a class declaring required field `y : str`
absent from the data makes validation fail. -/
theorem C2_witness :
    ("y", c2EntryW) ∈ c2SchemaW
  ∧ validate_fields "Backend" c2FldsW c2SchemaW .nil ≠ .ok () :=
  ⟨by decide,
   (C2_required_absent_fields "Backend" c2FldsW c2SchemaW .nil).2
     "y" c2EntryW .pstr (by decide) rfl rfl rfl (fun c h => PyAtom.noConfusion h)⟩

/-! ## C6: range and enum enforcement -/

/-- The claim's closed interval: the value passes every declared bound. -/
def withinBounds (e : SchemaEntry) (n : Int) : Bool :=
  (match e.minimum with
   | some m => decide (m ≤ n)
   | none => true) &&
  (match e.maximum with
   | some m => decide (n ≤ m)
   | none => true)

/-- The claim's enum membership: the value is a member of the declared enum
list (vacuously true when no enum is declared). -/
def enumMemberOk (e : SchemaEntry) (v : Value) : Bool :=
  match e.enum with
  | some l => l.containsV v
  | none => true

/-- C6: for a field present in the data with a numeric value, the per-field
check fails with `OutOfRange` exactly when the value lies outside the closed
interval of the declared bounds; within bounds, it fails with `NotInEnum`
exactly when a declared enum excludes the value; it succeeds exactly when
both hold; and a failing field makes the whole validation pass fail
regardless of the other fields. -/
theorem C6_range_enum_enforcement (cname : String) (flds : List FieldDecl)
    (props : Schema) (data : Data) (f : String) (e : SchemaEntry) (n : Int)
    (hv : data.lookupKey f = some (.vInt n)) :
    ((checkFieldV cname flds f e data = .error (.outOfRange cname f)) ↔
      withinBounds e n = false)
  ∧ (withinBounds e n = true →
      ((checkFieldV cname flds f e data = .error (.notInEnum cname f)) ↔
        enumMemberOk e (.vInt n) = false))
  ∧ ((checkFieldV cname flds f e data = .ok ()) ↔
      (withinBounds e n = true ∧ enumMemberOk e (.vInt n) = true))
  ∧ ((f, e) ∈ props → checkFieldV cname flds f e data ≠ .ok () →
      validate_fields cname flds props data ≠ .ok ()) := by
  have hchk : checkFieldV cname flds f e data = checkPresentV cname f e (.vInt n) := by
    rw [checkFieldV, hv]
  refine ⟨?_, ?_, ?_, ?_⟩
  · rw [hchk]
    rcases hmin : e.minimum with _ | m <;> rcases hmax : e.maximum with _ | M <;>
      rcases henum : e.enum with _ | l <;>
      simp only [checkPresentV, hmin, hmax, henum, withinBounds, enumMemberOk] <;>
      (try split_ifs) <;>
      simp_all
  · intro hwb
    rw [hchk]
    rcases hmin : e.minimum with _ | m <;> rcases hmax : e.maximum with _ | M <;>
      rcases henum : e.enum with _ | l <;>
      simp only [checkPresentV, hmin, hmax, henum, withinBounds, enumMemberOk] at hwb ⊢ <;>
      (try split_ifs) <;>
      simp_all <;> (try omega)
  · rw [hchk]
    rcases hmin : e.minimum with _ | m <;> rcases hmax : e.maximum with _ | M <;>
      rcases henum : e.enum with _ | l <;>
      simp only [checkPresentV, hmin, hmax, henum, withinBounds, enumMemberOk] <;>
      (try split_ifs) <;>
      simp_all
  · intro hmem hbad hok
    exact hbad ((validate_fields_ok_iff cname flds data props).mp hok (f, e) hmem)

/-- The schema entry used by the C6 witness: bounds 1..10 and an enum. -/
def c6EntryW : SchemaEntry :=
  { required := some true, type := some "integer",
    minimum := some 1, maximum := some 10,
    enum := some (.cons (.vInt 2) (.cons (.vInt 4) .nil)) }

/-- Witness for C6: value 3 of field `t` is within bounds but not an enum
member, so the check fails with `NotInEnum`. -/
theorem C6_witness :
    ValueMap.lookupKey (.cons "t" (.vInt 3) .nil) "t" = some (.vInt 3)
  ∧ withinBounds c6EntryW 3 = true
  ∧ (checkFieldV "G" [] "t" c6EntryW (.cons "t" (.vInt 3) .nil)
        = .error (.notInEnum "G" "t") ↔
      enumMemberOk c6EntryW (.vInt 3) = false) :=
  ⟨rfl, by decide,
   ((C6_range_enum_enforcement "G" [] [] (.cons "t" (.vInt 3) .nil) "t"
      c6EntryW 3 rfl).2.1 (by decide))⟩

/-! ## Lemmas about dict assignment and default merging -/

theorem lookup_setKey : ∀ (d : ValueMap) (k k' : String) (v : Value),
    (d.setKey k v).lookupKey k' = if k = k' then some v else d.lookupKey k'
  | .nil, k, k', v => by simp [ValueMap.setKey, ValueMap.lookupKey]
  | .cons a w rest, k, k', v => by
    by_cases hak : a = k
    · subst hak
      simp only [ValueMap.setKey, if_pos rfl]
      by_cases hkk' : a = k'
      · subst hkk'
        simp [ValueMap.lookupKey]
      · simp [ValueMap.lookupKey, hkk']
    · simp only [ValueMap.setKey, if_neg hak]
      by_cases hak' : a = k'
      · subst hak'
        have hkk' : k ≠ a := fun h => hak h.symm
        simp [ValueMap.lookupKey, hkk']
      · simp [ValueMap.lookupKey, hak', lookup_setKey rest k k' v]

/-- The value `mergeDefaults` would inject for an absent key: the first
entry for that key that carries a `default` wins (an earlier entry for the
same key without a `default` is skipped by the `'default' in value` guard). -/
def defaultLookup : Schema → String → Option Value
  | [], _ => none
  | (k', e) :: rest, k =>
    if k' = k then
      match e.default with
      | some v => some v
      | none => defaultLookup rest k
    else defaultLookup rest k

/-- Lookup characterization of the default-merge loop: present keys are
never overwritten; absent keys receive the schema default, if any. -/
theorem mergeDefaults_lookup (props : Schema) :
    ∀ (d : Data) (k : String),
      (mergeDefaults props d).lookupKey k =
        match d.lookupKey k with
        | some v => some v
        | none => defaultLookup props k := by
  induction props with
  | nil =>
    intro d k
    cases h : d.lookupKey k <;> simp [mergeDefaults, defaultLookup, h]
  | cons pe rest ih =>
    intro d k
    obtain ⟨k', e⟩ := pe
    by_cases hkk : k' = k
    · subst hkk
      cases hdk : d.lookupKey k' with
      | some v =>
        simp only [mergeDefaults, hdk, Option.isNone_some, Bool.false_eq_true,
          if_false, defaultLookup, if_pos rfl]
        rw [ih d k', hdk]
      | none =>
        cases he : e.default with
        | some v =>
          simp only [mergeDefaults, hdk, Option.isNone_none, if_true, he,
            defaultLookup, if_pos rfl]
          rw [ih (d.setKey k' v) k', lookup_setKey]
          simp
        | none =>
          simp only [mergeDefaults, hdk, Option.isNone_none, if_true, he,
            defaultLookup, if_pos rfl]
          rw [ih d k', hdk]
    · have step : ∀ d' : Data, mergeDefaults ((k', e) :: rest) d'
          = mergeDefaults rest
              (if (d'.lookupKey k').isNone then
                match e.default with
                | some v => d'.setKey k' v
                | none => d'
              else d') := fun _ => rfl
      rw [step d]
      cases hdk : d.lookupKey k' with
      | some v =>
        simp only [hdk, Option.isNone_some, Bool.false_eq_true, if_false]
        rw [ih d k]
        simp [defaultLookup, hkk]
      | none =>
        cases he : e.default with
        | some v =>
          simp only [hdk, Option.isNone_none, if_true, he]
          rw [ih (d.setKey k' v) k, lookup_setKey]
          simp only [if_neg hkk]
          simp [defaultLookup, hkk]
        | none =>
          simp only [hdk, Option.isNone_none, if_true, he]
          rw [ih d k]
          simp [defaultLookup, hkk]

/-- The first schema entry for a key determines the injected default. -/
theorem defaultLookup_of_slookup (props : Schema) (k : String)
    (e : SchemaEntry) (dv : Value)
    (hsl : slookup props k = some e) (hdv : e.default = some dv) :
    defaultLookup props k = some dv := by
  induction props with
  | nil => exact Option.noConfusion hsl
  | cons pe rest ih =>
    obtain ⟨k', e'⟩ := pe
    by_cases hkk : k' = k
    · subst hkk
      rw [slookup, if_pos rfl] at hsl
      injection hsl with hsl
      subst hsl
      simp [defaultLookup, hdv]
    · rw [slookup, if_neg hkk] at hsl
      simp only [defaultLookup, if_neg hkk]
      exact ih hsl

/-- A schema without any defaults leaves the data untouched. -/
theorem mergeDefaults_no_defaults (props : Schema)
    (h : ∀ pe ∈ props, pe.2.default = none) :
    ∀ d : Data, mergeDefaults props d = d := by
  induction props with
  | nil => intro d; rfl
  | cons pe rest ih =>
    intro d
    obtain ⟨k, e⟩ := pe
    have he : e.default = none := h (k, e) (List.mem_cons_self _ _)
    have hrest : ∀ pe ∈ rest, pe.2.default = none :=
      fun pe hm => h pe (List.mem_cons_of_mem _ hm)
    simp only [mergeDefaults, he, ite_self]
    exact ih hrest d

/-! ## C9: side effects of `create` on the caller's document -/

/-- A class with no node-typed fields leaves the data untouched in the
recursion loop. -/
theorem createChildren_no_node (env : Env)
    (recCreate : String → Data → Data → Except CreateErr (Value × Data))
    (cname : String) :
    ∀ flds : List FieldDecl, (∀ fd ∈ flds, isNodeType fd.ty = false) →
    ∀ d : Data, createChildren env recCreate cname flds d = .ok d := by
  intro flds
  induction flds with
  | nil => intro h d; rfl
  | cons fd rest ih =>
    intro h d
    have hfd : isNodeType fd.ty = false := h fd (List.mem_cons_self _ _)
    have hrest : ∀ fd' ∈ rest, isNodeType fd'.ty = false :=
      fun fd' hm => h fd' (List.mem_cons_of_mem _ hm)
    cases hty : fd.ty with
    | union ts => simp only [createChildren, hty]; exact ih hrest d
    | atom a =>
      cases a with
      | pconfig c => rw [hty] at hfd; simp [isNodeType] at hfd
      | pstr => simp only [createChildren, hty]; exact ih hrest d
      | pint => simp only [createChildren, hty]; exact ih hrest d
      | pfloat => simp only [createChildren, hty]; exact ih hrest d
      | pdict => simp only [createChildren, hty]; exact ih hrest d
      | plist => simp only [createChildren, hty]; exact ih hrest d
      | pnone => simp only [createChildren, hty]; exact ih hrest d
      | pdictAlias => simp only [createChildren, hty]; exact ih hrest d
      | pbaseModel => simp only [createChildren, hty]; exact ih hrest d
      | pother n => simp only [createChildren, hty]; exact ih hrest d

/-- C9 amended: the final state of the in-place-mutated `data` dict equals
the caller's document only under the conditions the counterexample leaves
open — when the resolved schema injects no default and the resolved class
has no node-typed field.  (In general `create` writes defaults and child
nodes into the caller's dict, and stores the loaded schema in the shared
class attribute `_schema`.) -/
theorem C9_no_mutation_only_without_defaults_and_children (env : Env)
    (fuel : Nat) (cls : String) (d p : Data) (rn : String)
    (cdef : ConfigClass) (props : Schema) (node : Value) (fdat : Data)
    (hres : resolveClass env cls p = .ok rn)
    (hcls : env.findClass rn = some cdef)
    (hsch : env.findSchema rn = some props)
    (hnodef : ∀ pe ∈ props, pe.2.default = none)
    (hnonode : ∀ fd ∈ cdef.fields, isNodeType fd.ty = false)
    (hcreate : create env fuel cls d p = .ok (node, fdat)) :
    fdat = d := by
  cases fuel with
  | zero => exact Except.noConfusion hcreate
  | succ fuel =>
    rw [create, createStep] at hcreate
    simp only [hres, hcls, hsch] at hcreate
    cases hens : ensure_all_fields_present_in_schema rn cdef.fields props with
    | error er => simp only [hens] at hcreate; exact Except.noConfusion hcreate
    | ok u =>
      cases u
      simp only [hens] at hcreate
      cases hval : validate_schema_with_class rn cdef.fields props with
      | error er => simp only [hval] at hcreate; exact Except.noConfusion hcreate
      | ok u =>
        cases u
        simp only [hval, createRest, mergeDefaults_no_defaults props hnodef d,
          createChildren_no_node env (create env fuel) rn cdef.fields hnonode d]
          at hcreate
        cases hvf : validate_fields rn cdef.fields props d with
        | error er => simp only [hvf] at hcreate; exact Except.noConfusion hcreate
        | ok u =>
          cases u
          simp only [hvf] at hcreate
          cases hinst : instantiate env rn cdef.fields d with
          | error er => simp only [hinst] at hcreate; exact Except.noConfusion hcreate
          | ok nd =>
            simp only [hinst] at hcreate
            injection hcreate with h'
            exact (congrArg Prod.snd h').symm

/-- The environment of the C9 counterexample: one class with a required
string field whose schema supplies a default. -/
def c9Env : Env :=
  { classes := [("Cfg", { fields := [⟨"x", .atom .pstr, none⟩] })],
    schemas := [("Cfg",
      [("x", { required := some true, type := some "string",
               default := some (.vStr "hello") })])] }

/-- C9 counterexample: calling `create` on the empty document leaves the
caller's dict holding the injected default — the final state of the
in-place-mutated `data` dict differs from the document the caller passed,
refuting "the caller's raw input document is left unchanged". -/
theorem C9_counterexample :
    create c9Env 1 "Cfg" .nil .nil
      = .ok (.vNode "Cfg" (.cons "x" (.vStr "hello") .nil),
             .cons "x" (.vStr "hello") .nil)
  ∧ ValueMap.cons "x" (.vStr "hello") .nil ≠ (.nil : ValueMap) :=
  ⟨rfl, fun h => ValueMap.noConfusion h⟩

/-- The environment of the C9 witness: a class whose schema has no defaults
and which has no node-typed fields. -/
def c9bEnv : Env :=
  { classes := [("P", { fields := [⟨"a", .atom .pint, none⟩] })],
    schemas := [("P",
      [("a", { required := some true, type := some "integer" })])] }

/-- The schema of the C9 witness. -/
def c9bProps : Schema := [("a", { required := some true, type := some "integer" })]

/-- The class of the C9 witness. -/
def c9bCls : ConfigClass := { fields := [⟨"a", .atom .pint, none⟩] }

/-- Witness for C9 amended: with no schema defaults and no node-typed
fields, a successful `create` leaves the caller's document unchanged. -/
theorem C9_witness :
    (∀ pe ∈ c9bProps, pe.2.default = none)
  ∧ ValueMap.cons "a" (.vInt 5) .nil = ValueMap.cons "a" (.vInt 5) .nil :=
  ⟨by decide,
   C9_no_mutation_only_without_defaults_and_children c9bEnv 1 "P"
     (.cons "a" (.vInt 5) .nil) .nil "P" c9bCls c9bProps
     (.vNode "P" (.cons "a" (.vInt 5) .nil))
     (.cons "a" (.vInt 5) .nil)
     rfl rfl rfl (by decide) (by decide) rfl⟩

/-! ## Error classification lemmas for the construction pipeline -/

theorem backend_get_class_error (pd : Data) (er : CreateErr)
    (h : backendConfig_get_class pd = .error er) :
    (∃ v, er = .unknownVariant v) ∨ (∃ m, er = .moduleNotFound m) := by
  cases hd : backendDisc pd with
  | vStr s =>
    simp only [backendConfig_get_class, hd] at h
    cases ht : tblLookup BACKEND_CONFIGS s with
    | some c =>
      simp only [ht] at h
      cases hm : tblLookup BACKEND_CLASS_MODULES s with
      | some module =>
        simp only [hm, importClass] at h
        cases hp : PRESENT_MODULES.contains (module, c) with
        | true => simp only [hp, if_true] at h; exact Except.noConfusion h
        | false =>
          simp only [hp, Bool.false_eq_true, if_false] at h
          injection h with h'
          exact Or.inr ⟨_, h'.symm⟩
      | none =>
        simp only [hm] at h
        injection h with h'
        exact Or.inr ⟨_, h'.symm⟩
    | none =>
      simp only [ht] at h
      injection h with h'
      exact Or.inl ⟨_, h'.symm⟩
  | vNone => simp only [backendConfig_get_class, hd] at h; injection h with h'; exact Or.inl ⟨_, h'.symm⟩
  | vInt n => simp only [backendConfig_get_class, hd] at h; injection h with h'; exact Or.inl ⟨_, h'.symm⟩
  | vList xs => simp only [backendConfig_get_class, hd] at h; injection h with h'; exact Or.inl ⟨_, h'.symm⟩
  | vDict d => simp only [backendConfig_get_class, hd] at h; injection h with h'; exact Or.inl ⟨_, h'.symm⟩
  | vNode c fs => simp only [backendConfig_get_class, hd] at h; injection h with h'; exact Or.inl ⟨_, h'.symm⟩

theorem interface_get_class_error (pd : Data) (er : CreateErr)
    (h : interfaceConfig_get_class pd = .error er) :
    (∃ v, er = .unknownVariant v) ∨ (∃ m, er = .moduleNotFound m) := by
  cases hd : interfaceDisc pd with
  | vStr s =>
    simp only [interfaceConfig_get_class, hd] at h
    cases ht : tblLookup INTERFACE_CONFIGS s with
    | some c =>
      simp only [ht] at h
      cases hm : tblLookup INTERFACE_CLASS_MODULES s with
      | some module =>
        simp only [hm, importClass] at h
        cases hp : PRESENT_MODULES.contains (module, c) with
        | true => simp only [hp, if_true] at h; exact Except.noConfusion h
        | false =>
          simp only [hp, Bool.false_eq_true, if_false] at h
          injection h with h'
          exact Or.inr ⟨_, h'.symm⟩
      | none =>
        simp only [hm] at h
        injection h with h'
        exact Or.inr ⟨_, h'.symm⟩
    | none =>
      simp only [ht] at h
      injection h with h'
      exact Or.inl ⟨_, h'.symm⟩
  | vNone => simp only [interfaceConfig_get_class, hd] at h; injection h with h'; exact Or.inl ⟨_, h'.symm⟩
  | vInt n => simp only [interfaceConfig_get_class, hd] at h; injection h with h'; exact Or.inl ⟨_, h'.symm⟩
  | vList xs => simp only [interfaceConfig_get_class, hd] at h; injection h with h'; exact Or.inl ⟨_, h'.symm⟩
  | vDict d => simp only [interfaceConfig_get_class, hd] at h; injection h with h'; exact Or.inl ⟨_, h'.symm⟩
  | vNode c fs => simp only [interfaceConfig_get_class, hd] at h; injection h with h'; exact Or.inl ⟨_, h'.symm⟩

theorem resolveClass_error (env : Env) (cls : String) (p : Data) (er : CreateErr)
    (h : resolveClass env cls p = .error er) :
    (∃ c, er = .classNotFound c) ∨ (∃ v, er = .unknownVariant v) ∨
      (∃ m, er = .moduleNotFound m) := by
  cases hc : env.findClass cls with
  | none =>
    simp only [resolveClass, hc] at h
    injection h with h'
    exact Or.inl ⟨_, h'.symm⟩
  | some cdef =>
    cases hf : cdef.family with
    | none =>
      simp only [resolveClass, hc, hf] at h
      exact Except.noConfusion h
    | some fam =>
      cases fam with
      | backend =>
        simp only [resolveClass, hc, hf] at h
        exact Or.inr (backend_get_class_error p er h)
      | interface =>
        simp only [resolveClass, hc, hf] at h
        exact Or.inr (interface_get_class_error p er h)

theorem ensure_error_kinds (cname : String) (props : Schema) (er : CreateErr) :
    ∀ flds : List FieldDecl,
      ensure_all_fields_present_in_schema cname flds props = .error er →
      (∃ f, er = .fieldMissingFromSchema cname f) ∨
        (∃ f, er = .schemaEntryIncomplete cname f) := by
  intro flds
  induction flds with
  | nil => intro h; exact Except.noConfusion h
  | cons fd rest ih =>
    intro h
    cases hsl : slookup props fd.name with
    | none =>
      simp only [ensure_all_fields_present_in_schema, hsl] at h
      injection h with h'
      exact Or.inl ⟨_, h'.symm⟩
    | some e =>
      cases hr : e.required with
      | none =>
        simp only [ensure_all_fields_present_in_schema, hsl, hr,
          Option.isNone_none, if_true] at h
        injection h with h'
        exact Or.inr ⟨_, h'.symm⟩
      | some r =>
        cases ht : e.type with
        | none =>
          simp only [ensure_all_fields_present_in_schema, hsl, hr, ht,
            Option.isNone_some, Option.isNone_none, Bool.false_eq_true,
            if_false, if_true] at h
          injection h with h'
          exact Or.inr ⟨_, h'.symm⟩
        | some t =>
          simp only [ensure_all_fields_present_in_schema, hsl, hr, ht,
            Option.isNone_some, Bool.false_eq_true, if_false] at h
          exact ih h

theorem vswc_error_kinds (cname : String) (props : Schema) (er : CreateErr) :
    ∀ flds : List FieldDecl,
      validate_schema_with_class cname flds props = .error er →
      (∃ f, er = .attrNotFoundInSchema cname f) ∨
        (∃ f, er = .typeMismatch cname f) ∨
        (∃ f, er = .requiredStatusMismatch cname f) := by
  intro flds
  induction flds with
  | nil => intro h; exact Except.noConfusion h
  | cons fd rest ih =>
    intro h
    cases hsl : slookup props fd.name with
    | none =>
      simp only [validate_schema_with_class, hsl] at h
      injection h with h'
      exact Or.inl ⟨_, h'.symm⟩
    | some e =>
      cases ht : e.type with
      | some st =>
        cases him : is_type_match st fd.ty with
        | false =>
          simp only [validate_schema_with_class, hsl, ht, him,
            Bool.false_eq_true, if_false] at h
          injection h with h'
          exact Or.inr (Or.inl ⟨_, h'.symm⟩)
        | true =>
          cases hr : e.required with
          | some r =>
            cases hq : (fd.pydDefault.isNone == r) with
            | false =>
              simp only [validate_schema_with_class, hsl, ht, him, hr, hq,
                Bool.false_eq_true, if_true, if_false] at h
              injection h with h'
              exact Or.inr (Or.inr ⟨_, h'.symm⟩)
            | true =>
              simp only [validate_schema_with_class, hsl, ht, him, hr, hq,
                if_true] at h
              exact ih h
          | none =>
            simp only [validate_schema_with_class, hsl, ht, him, hr,
              if_true] at h
            exact ih h
      | none =>
        cases hr : e.required with
        | some r =>
          cases hq : (fd.pydDefault.isNone == r) with
          | false =>
            simp only [validate_schema_with_class, hsl, ht, hr, hq,
              Bool.false_eq_true, if_false] at h
            injection h with h'
            exact Or.inr (Or.inr ⟨_, h'.symm⟩)
          | true =>
            simp only [validate_schema_with_class, hsl, ht, hr, hq, if_true] at h
            exact ih h
        | none =>
          simp only [validate_schema_with_class, hsl, ht, hr] at h
          exact ih h

theorem checkPresentV_ne_missingRequired (cname f : String) (e : SchemaEntry)
    (v : Value) (c g : String) :
    checkPresentV cname f e v ≠ .error (.missingRequired c g) := by
  intro h
  simp only [checkPresentV] at h
  cases hmin : e.minimum <;> cases hmax : e.maximum <;> cases henum : e.enum <;>
    cases v <;> simp_all <;> split_ifs at h <;> simp_all

theorem checkAbsentV_missingRequired (cname f : String) (flds : List FieldDecl)
    (e : SchemaEntry) (c g : String)
    (h : checkAbsentV cname f flds e = .error (.missingRequired c g)) :
    c = cname ∧ g = f ∧
      ∃ ty, findFieldTy flds f = some ty ∧ isNodeType ty = false := by
  simp only [checkAbsentV] at h
  cases hr : e.required with
  | none => rw [hr] at h; injection h with h'; exact CreateErr.noConfusion h'
  | some req =>
    rw [hr] at h
    cases req with
    | false => simp at h
    | true =>
      simp only [if_true] at h
      cases hty : findFieldTy flds f with
      | none => rw [hty] at h; exact Except.noConfusion h
      | some ty =>
        rw [hty] at h
        cases ty with
        | union ts => injection h with h'; exact CreateErr.noConfusion h'
        | atom a =>
          cases a with
          | pconfig n => exact Except.noConfusion h
          | pdictAlias => injection h with h'; exact CreateErr.noConfusion h'
          | pstr =>
            injection h with h'
            obtain ⟨h1, h2⟩ := CreateErr.missingRequired.inj h'
            exact ⟨h1.symm, h2.symm, .atom .pstr, rfl, rfl⟩
          | pint =>
            injection h with h'
            obtain ⟨h1, h2⟩ := CreateErr.missingRequired.inj h'
            exact ⟨h1.symm, h2.symm, .atom .pint, rfl, rfl⟩
          | pfloat =>
            injection h with h'
            obtain ⟨h1, h2⟩ := CreateErr.missingRequired.inj h'
            exact ⟨h1.symm, h2.symm, .atom .pfloat, rfl, rfl⟩
          | pdict =>
            injection h with h'
            obtain ⟨h1, h2⟩ := CreateErr.missingRequired.inj h'
            exact ⟨h1.symm, h2.symm, .atom .pdict, rfl, rfl⟩
          | plist =>
            injection h with h'
            obtain ⟨h1, h2⟩ := CreateErr.missingRequired.inj h'
            exact ⟨h1.symm, h2.symm, .atom .plist, rfl, rfl⟩
          | pnone =>
            injection h with h'
            obtain ⟨h1, h2⟩ := CreateErr.missingRequired.inj h'
            exact ⟨h1.symm, h2.symm, .atom .pnone, rfl, rfl⟩
          | pbaseModel =>
            injection h with h'
            obtain ⟨h1, h2⟩ := CreateErr.missingRequired.inj h'
            exact ⟨h1.symm, h2.symm, .atom .pbaseModel, rfl, rfl⟩
          | pother n =>
            injection h with h'
            obtain ⟨h1, h2⟩ := CreateErr.missingRequired.inj h'
            exact ⟨h1.symm, h2.symm, .atom (.pother n), rfl, rfl⟩

theorem validate_fields_error_exists (cname : String) (flds : List FieldDecl)
    (data : Data) (er : CreateErr) :
    ∀ props : Schema,
      validate_fields cname flds props data = .error er →
      ∃ fe ∈ props, checkFieldV cname flds fe.1 fe.2 data = .error er := by
  intro props
  induction props with
  | nil => intro h; exact Except.noConfusion h
  | cons fe rest ih =>
    obtain ⟨f, e⟩ := fe
    intro h
    cases hc : checkFieldV cname flds f e data with
    | error er' =>
      simp only [validate_fields, hc] at h
      injection h with h'
      subst h'
      exact ⟨(f, e), List.mem_cons_self _ _, hc⟩
    | ok u =>
      cases u
      simp only [validate_fields, hc] at h
      obtain ⟨fe', hmem, hcf⟩ := ih h
      exact ⟨fe', List.mem_cons_of_mem _ hmem, hcf⟩

theorem instFields_error_kind (env : Env) (cname : String) (er : CreateErr) :
    ∀ (flds : List FieldDecl) (data : Data),
      instFields env cname flds data = .error er →
      ∃ f, er = .instantiationError cname f := by
  intro flds
  induction flds with
  | nil => intro data h; exact Except.noConfusion h
  | cons fd rest ih =>
    intro data h
    cases hlk : data.lookupKey fd.name with
    | some v =>
      cases hacc : tyAccepts env fd.ty v with
      | false =>
        simp only [instFields, hlk, hacc, Bool.false_eq_true, if_false] at h
        injection h with h'
        exact ⟨_, h'.symm⟩
      | true =>
        simp only [instFields, hlk, hacc, if_true] at h
        cases hrec : instFields env cname rest data with
        | error er' =>
          rw [hrec] at h
          injection h with h'
          subst h'
          exact ih data hrec
        | ok m => rw [hrec] at h; exact Except.noConfusion h
    | none =>
      cases hd : fd.pydDefault with
      | some dv =>
        simp only [instFields, hlk, hd] at h
        cases hrec : instFields env cname rest data with
        | error er' =>
          rw [hrec] at h
          injection h with h'
          subst h'
          exact ih data hrec
        | ok m => rw [hrec] at h; exact Except.noConfusion h
      | none =>
        simp only [instFields, hlk, hd] at h
        injection h with h'
        exact ⟨_, h'.symm⟩

theorem instantiate_error_kind (env : Env) (cname : String)
    (flds : List FieldDecl) (data : Data) (er : CreateErr)
    (h : instantiate env cname flds data = .error er) :
    ∃ f, er = .instantiationError cname f := by
  rw [instantiate] at h
  cases hif : instFields env cname flds data with
  | error er' =>
    rw [hif] at h
    injection h with h'
    subst h'
    exact instFields_error_kind env cname er' flds data hif
  | ok m => rw [hif] at h; exact Except.noConfusion h

theorem toChildData_error (cname f : String) (ov : Option Value) (er : CreateErr)
    (h : toChildData cname f ov = .error er) : er = .badChildData cname f := by
  cases ov with
  | none => exact Except.noConfusion h
  | some v =>
    cases v <;> simp only [toChildData] at h <;>
      (try exact Except.noConfusion h) <;>
      (injection h with h'; exact h'.symm)

theorem createChildren_error (env : Env)
    (recCreate : String → Data → Data → Except CreateErr (Value × Data))
    (cname : String) (er : CreateErr) :
    ∀ (flds : List FieldDecl) (d : Data),
      createChildren env recCreate cname flds d = .error er →
      (∃ f, er = .badChildData cname f) ∨
        (∃ c cd pd, recCreate c cd pd = .error er) := by
  intro flds
  induction flds with
  | nil => intro d h; exact Except.noConfusion h
  | cons fd rest ih =>
    intro d h
    cases hty : fd.ty with
    | union ts =>
      simp only [createChildren, hty] at h
      exact ih d h
    | atom a =>
      cases a with
      | pconfig childCls =>
        simp only [createChildren, hty] at h
        cases htc : toChildData cname fd.name (d.lookupKey fd.name) with
        | error er' =>
          rw [htc] at h
          injection h with h'
          subst h'
          exact Or.inl ⟨_, toChildData_error _ _ _ _ htc⟩
        | ok cd =>
          simp only [htc] at h
          cases hrec : recCreate childCls cd d with
          | error er' =>
            simp only [hrec] at h
            injection h with h'
            subst h'
            exact Or.inr ⟨childCls, cd, d, hrec⟩
          | ok nd =>
            obtain ⟨node, rest'⟩ := nd
            simp only [hrec] at h
            exact ih (d.setKey fd.name node) h
      | pstr => simp only [createChildren, hty] at h; exact ih d h
      | pint => simp only [createChildren, hty] at h; exact ih d h
      | pfloat => simp only [createChildren, hty] at h; exact ih d h
      | pdict => simp only [createChildren, hty] at h; exact ih d h
      | plist => simp only [createChildren, hty] at h; exact ih d h
      | pnone => simp only [createChildren, hty] at h; exact ih d h
      | pdictAlias => simp only [createChildren, hty] at h; exact ih d h
      | pbaseModel => simp only [createChildren, hty] at h; exact ih d h
      | pother n => simp only [createChildren, hty] at h; exact ih d h

/-! ## C4: children are substituted before the parent's validation -/

theorem createChildren_preserves_present (env : Env)
    (recCreate : String → Data → Data → Except CreateErr (Value × Data))
    (cname : String) :
    ∀ (flds : List FieldDecl) (d d2 : Data),
      createChildren env recCreate cname flds d = .ok d2 →
      ∀ k, (d.lookupKey k).isSome = true → (d2.lookupKey k).isSome = true := by
  intro flds
  induction flds with
  | nil =>
    intro d d2 h k hk
    injection h with h'
    subst h'
    exact hk
  | cons fd rest ih =>
    intro d d2 h k hk
    cases hty : fd.ty with
    | union ts =>
      simp only [createChildren, hty] at h
      exact ih d d2 h k hk
    | atom a =>
      cases a with
      | pconfig childCls =>
        simp only [createChildren, hty] at h
        cases htc : toChildData cname fd.name (d.lookupKey fd.name) with
        | error er => simp only [htc] at h; exact Except.noConfusion h
        | ok cd =>
          simp only [htc] at h
          cases hrec : recCreate childCls cd d with
          | error er => simp only [hrec] at h; exact Except.noConfusion h
          | ok nd =>
            obtain ⟨node, rest'⟩ := nd
            simp only [hrec] at h
            refine ih (d.setKey fd.name node) d2 h k ?_
            rw [lookup_setKey]
            by_cases hfk : fd.name = k
            · simp [hfk]
            · simp only [if_neg hfk]
              exact hk
      | pstr => simp only [createChildren, hty] at h; exact ih d d2 h k hk
      | pint => simp only [createChildren, hty] at h; exact ih d d2 h k hk
      | pfloat => simp only [createChildren, hty] at h; exact ih d d2 h k hk
      | pdict => simp only [createChildren, hty] at h; exact ih d d2 h k hk
      | plist => simp only [createChildren, hty] at h; exact ih d d2 h k hk
      | pnone => simp only [createChildren, hty] at h; exact ih d d2 h k hk
      | pdictAlias => simp only [createChildren, hty] at h; exact ih d d2 h k hk
      | pbaseModel => simp only [createChildren, hty] at h; exact ih d d2 h k hk
      | pother n => simp only [createChildren, hty] at h; exact ih d d2 h k hk

theorem createChildren_node_present (env : Env)
    (recCreate : String → Data → Data → Except CreateErr (Value × Data))
    (cname : String) :
    ∀ (flds : List FieldDecl) (d d2 : Data),
      createChildren env recCreate cname flds d = .ok d2 →
      ∀ fd ∈ flds, isNodeType fd.ty = true →
        (d2.lookupKey fd.name).isSome = true := by
  intro flds
  induction flds with
  | nil => intro d d2 h fd hmem; exact absurd hmem (List.not_mem_nil fd)
  | cons fd0 rest ih =>
    intro d d2 h fd hmem hnode
    cases hty : fd0.ty with
    | union ts =>
      simp only [createChildren, hty] at h
      rcases List.mem_cons.mp hmem with h1 | h1
      · subst h1; rw [hty] at hnode; simp [isNodeType] at hnode
      · exact ih d d2 h fd h1 hnode
    | atom a =>
      cases a with
      | pconfig childCls =>
        simp only [createChildren, hty] at h
        cases htc : toChildData cname fd0.name (d.lookupKey fd0.name) with
        | error er => simp only [htc] at h; exact Except.noConfusion h
        | ok cd =>
          simp only [htc] at h
          cases hrec : recCreate childCls cd d with
          | error er => simp only [hrec] at h; exact Except.noConfusion h
          | ok nd =>
            obtain ⟨node, rest'⟩ := nd
            simp only [hrec] at h
            rcases List.mem_cons.mp hmem with h1 | h1
            · subst h1
              refine createChildren_preserves_present env recCreate cname rest
                (d.setKey fd.name node) d2 h fd.name ?_
              rw [lookup_setKey, if_pos rfl]
              rfl
            · exact ih (d.setKey fd0.name node) d2 h fd h1 hnode
      | pstr =>
        simp only [createChildren, hty] at h
        rcases List.mem_cons.mp hmem with h1 | h1
        · subst h1; rw [hty] at hnode; simp [isNodeType] at hnode
        · exact ih d d2 h fd h1 hnode
      | pint =>
        simp only [createChildren, hty] at h
        rcases List.mem_cons.mp hmem with h1 | h1
        · subst h1; rw [hty] at hnode; simp [isNodeType] at hnode
        · exact ih d d2 h fd h1 hnode
      | pfloat =>
        simp only [createChildren, hty] at h
        rcases List.mem_cons.mp hmem with h1 | h1
        · subst h1; rw [hty] at hnode; simp [isNodeType] at hnode
        · exact ih d d2 h fd h1 hnode
      | pdict =>
        simp only [createChildren, hty] at h
        rcases List.mem_cons.mp hmem with h1 | h1
        · subst h1; rw [hty] at hnode; simp [isNodeType] at hnode
        · exact ih d d2 h fd h1 hnode
      | plist =>
        simp only [createChildren, hty] at h
        rcases List.mem_cons.mp hmem with h1 | h1
        · subst h1; rw [hty] at hnode; simp [isNodeType] at hnode
        · exact ih d d2 h fd h1 hnode
      | pnone =>
        simp only [createChildren, hty] at h
        rcases List.mem_cons.mp hmem with h1 | h1
        · subst h1; rw [hty] at hnode; simp [isNodeType] at hnode
        · exact ih d d2 h fd h1 hnode
      | pdictAlias =>
        simp only [createChildren, hty] at h
        rcases List.mem_cons.mp hmem with h1 | h1
        · subst h1; rw [hty] at hnode; simp [isNodeType] at hnode
        · exact ih d d2 h fd h1 hnode
      | pbaseModel =>
        simp only [createChildren, hty] at h
        rcases List.mem_cons.mp hmem with h1 | h1
        · subst h1; rw [hty] at hnode; simp [isNodeType] at hnode
        · exact ih d d2 h fd h1 hnode
      | pother n =>
        simp only [createChildren, hty] at h
        rcases List.mem_cons.mp hmem with h1 | h1
        · subst h1; rw [hty] at hnode; simp [isNodeType] at hnode
        · exact ih d d2 h fd h1 hnode

/-- C4: (i) after a successful recursion phase, every node-typed field of
the class is present in the data that `validate_fields` will see (the child
was substituted before validation); (ii) consequently a `MissingRequired`
error, at any recursion depth, can only concern a field the erring class
declares with a *non-node* type — a required node-typed field whose own
construction succeeds is never reported missing. -/
theorem C4_children_substituted_before_validation (env : Env) :
    (∀ (recCreate : String → Data → Data → Except CreateErr (Value × Data))
        (cname : String) (flds : List FieldDecl) (d d2 : Data),
      createChildren env recCreate cname flds d = .ok d2 →
      ∀ fd ∈ flds, isNodeType fd.ty = true →
        (d2.lookupKey fd.name).isSome = true)
  ∧ (∀ (fuel : Nat) (cls : String) (d p : Data) (c f : String),
      create env fuel cls d p = .error (.missingRequired c f) →
      ∃ cdef ty, env.findClass c = some cdef ∧
        findFieldTy cdef.fields f = some ty ∧ isNodeType ty = false) := by
  constructor
  · exact createChildren_node_present env
  · intro fuel
    induction fuel with
    | zero =>
      intro cls d p c f h
      injection h with h'
      exact CreateErr.noConfusion h'
    | succ fuel ih =>
      intro cls d p c f h
      rw [create, createStep] at h
      cases hres : resolveClass env cls p with
      | error er =>
        simp only [hres] at h
        injection h with h'
        subst h'
        rcases resolveClass_error env cls p _ hres with ⟨c', hc'⟩ | ⟨v, hv⟩ | ⟨m, hm⟩
        · exact CreateErr.noConfusion hc'
        · exact CreateErr.noConfusion hv
        · exact CreateErr.noConfusion hm
      | ok rn =>
        simp only [hres] at h
        cases hcls : env.findClass rn with
        | none =>
          simp only [hcls] at h
          injection h with h'
          exact CreateErr.noConfusion h'
        | some cdef =>
          simp only [hcls] at h
          cases hsch : env.findSchema rn with
          | none =>
            simp only [hsch] at h
            injection h with h'
            exact CreateErr.noConfusion h'
          | some props =>
            simp only [hsch] at h
            cases hens : ensure_all_fields_present_in_schema rn cdef.fields props with
            | error er =>
              simp only [hens] at h
              injection h with h'
              subst h'
              rcases ensure_error_kinds rn props _ cdef.fields hens with ⟨f', hf'⟩ | ⟨f', hf'⟩
              · exact CreateErr.noConfusion hf'
              · exact CreateErr.noConfusion hf'
            | ok u =>
              cases u
              simp only [hens] at h
              cases hval : validate_schema_with_class rn cdef.fields props with
              | error er =>
                simp only [hval] at h
                injection h with h'
                subst h'
                rcases vswc_error_kinds rn props _ cdef.fields hval with
                  ⟨f', hf'⟩ | ⟨f', hf'⟩ | ⟨f', hf'⟩
                · exact CreateErr.noConfusion hf'
                · exact CreateErr.noConfusion hf'
                · exact CreateErr.noConfusion hf'
              | ok u =>
                cases u
                simp only [hval, createRest] at h
                cases hch : createChildren env (create env fuel) rn cdef.fields
                    (mergeDefaults props d) with
                | error er =>
                  simp only [hch] at h
                  injection h with h'
                  subst h'
                  rcases createChildren_error env (create env fuel) rn _
                      cdef.fields (mergeDefaults props d) hch with
                    ⟨f', hf'⟩ | ⟨c', cd, pd, hrec⟩
                  · exact CreateErr.noConfusion hf'
                  · exact ih c' cd pd c f hrec
                | ok d2 =>
                  simp only [hch] at h
                  cases hvf : validate_fields rn cdef.fields props d2 with
                  | error er =>
                    simp only [hvf] at h
                    injection h with h'
                    subst h'
                    obtain ⟨⟨g, e⟩, hmem, hcf⟩ :=
                      validate_fields_error_exists rn cdef.fields d2 _ props hvf
                    rw [checkFieldV] at hcf
                    cases hlk : d2.lookupKey g with
                    | some v =>
                      rw [hlk] at hcf
                      exact absurd hcf
                        (checkPresentV_ne_missingRequired rn g e v c f)
                    | none =>
                      rw [hlk] at hcf
                      obtain ⟨hc, hg, ty, hty, hnode⟩ :=
                        checkAbsentV_missingRequired rn g cdef.fields e c f hcf
                      subst hc
                      subst hg
                      exact ⟨cdef, ty, hcls, hty, hnode⟩
                  | ok u =>
                    cases u
                    simp only [hvf] at h
                    cases hinst : instantiate env rn cdef.fields d2 with
                    | error er =>
                      simp only [hinst] at h
                      injection h with h'
                      subst h'
                      obtain ⟨f', hf'⟩ :=
                        instantiate_error_kind env rn cdef.fields d2 _ hinst
                      exact CreateErr.noConfusion hf'
                    | ok node =>
                      simp only [hinst] at h
                      exact Except.noConfusion h

/-- Environment for the C4 witness, part (ii): a class with a required
non-node string field. -/
def c4Env : Env :=
  { classes := [("C", { fields := [⟨"x", .atom .pstr, none⟩] })],
    schemas := [("C", [("x", { required := some true, type := some "string" })])] }

/-- Environment for the C4 witness, part (i): a parent with one node-typed
field and its (empty) child class. -/
def c4EnvB : Env :=
  { classes := [("Par", { fields := [⟨"child", .atom (.pconfig "Ch"), none⟩] }),
                ("Ch", { fields := [] })],
    schemas := [("Par", [("child", { required := some true, type := some "object" })]),
                ("Ch", [])] }

/-- The node-typed field of the C4 witness parent. -/
def c4ChildFd : FieldDecl := ⟨"child", .atom (.pconfig "Ch"), none⟩

/-- Witness for C4: (i) running the recursion loop of `Par` on the empty
document substitutes the constructed `Ch` node, so the node-typed field is
present in the data validation will see; (ii) `create` on class `C` with an
empty document fails with `MissingRequired` for `x`, and the theorem
certifies `x` is declared with a non-node type. -/
theorem C4_witness :
    createChildren c4EnvB (create c4EnvB 1) "Par" [c4ChildFd] .nil
        = .ok (.cons "child" (.vNode "Ch" .nil) .nil)
  ∧ (ValueMap.lookupKey (.cons "child" (.vNode "Ch" .nil) .nil) "child").isSome = true
  ∧ create c4Env 1 "C" .nil .nil = .error (.missingRequired "C" "x")
  ∧ ∃ cdef ty, c4Env.findClass "C" = some cdef ∧
      findFieldTy cdef.fields "x" = some ty ∧ isNodeType ty = false :=
  ⟨rfl,
   (C4_children_substituted_before_validation c4EnvB).1 (create c4EnvB 1) "Par"
     [c4ChildFd] .nil (.cons "child" (.vNode "Ch" .nil) .nil) rfl c4ChildFd
     (List.mem_cons_self _ _) rfl,
   rfl,
   (C4_children_substituted_before_validation c4Env).2 1 "C" .nil .nil "C" "x" rfl⟩

/-! ## C7: default injection idempotence -/

/-- Two dicts are observationally equal when every key lookup agrees (the
same dict content, possibly in a different insertion order). -/
def DataEquiv (d d' : Data) : Prop :=
  ∀ k, d.lookupKey k = d'.lookupKey k

theorem DataEquiv.rfl (d : Data) : DataEquiv d d := fun _ => Eq.refl _

theorem isTruthy_of_equiv : ∀ {d d' : Data}, DataEquiv d d' →
    d.isTruthy = d'.isTruthy
  | .nil, .nil, _ => Eq.refl _
  | .nil, .cons k v r, h => by
    have := h k
    simp [ValueMap.lookupKey] at this
  | .cons k v r, .nil, h => by
    have := h k
    simp [ValueMap.lookupKey] at this
  | .cons _ _ _, .cons _ _ _, _ => Eq.refl _

theorem backendDisc_equiv {p p' : Data} (h : DataEquiv p p') :
    backendDisc p = backendDisc p' := by
  rw [backendDisc, backendDisc, isTruthy_of_equiv h, h "backend_config_type"]

theorem interfaceDisc_equiv {p p' : Data} (h : DataEquiv p p') :
    interfaceDisc p = interfaceDisc p' := by
  rw [interfaceDisc, interfaceDisc, isTruthy_of_equiv h, h "interface_type"]

theorem resolveClass_equiv (env : Env) (cls : String) {p p' : Data}
    (h : DataEquiv p p') :
    resolveClass env cls p = resolveClass env cls p' := by
  cases hc : env.findClass cls with
  | none => simp only [resolveClass, hc]
  | some cdef =>
    cases hf : cdef.family with
    | none => simp only [resolveClass, hc, hf]
    | some fam =>
      cases fam with
      | backend =>
        simp only [resolveClass, hc, hf]
        rw [backendConfig_get_class, backendConfig_get_class, backendDisc_equiv h]
      | interface =>
        simp only [resolveClass, hc, hf]
        rw [interfaceConfig_get_class, interfaceConfig_get_class, interfaceDisc_equiv h]

theorem mergeDefaults_equiv (props : Schema) {d d' : Data}
    (h : DataEquiv d d') :
    DataEquiv (mergeDefaults props d) (mergeDefaults props d') := by
  intro k
  rw [mergeDefaults_lookup, mergeDefaults_lookup, h k]

theorem setKey_equiv {d d' : Data} (h : DataEquiv d d') (k : String) (v : Value) :
    DataEquiv (d.setKey k v) (d'.setKey k v) := by
  intro k'
  rw [lookup_setKey, lookup_setKey, h k']

theorem checkFieldV_equiv (cname : String) (flds : List FieldDecl)
    (f : String) (e : SchemaEntry) {d d' : Data} (h : DataEquiv d d') :
    checkFieldV cname flds f e d = checkFieldV cname flds f e d' := by
  rw [checkFieldV, checkFieldV, h f]

theorem validate_fields_equiv (cname : String) (flds : List FieldDecl)
    {d d' : Data} (h : DataEquiv d d') :
    ∀ props : Schema,
      validate_fields cname flds props d = validate_fields cname flds props d' := by
  intro props
  induction props with
  | nil => rfl
  | cons fe rest ih =>
    obtain ⟨f, e⟩ := fe
    rw [validate_fields, validate_fields, checkFieldV_equiv cname flds f e h, ih]

theorem instFields_equiv (env : Env) (cname : String) {d d' : Data}
    (h : DataEquiv d d') :
    ∀ flds : List FieldDecl,
      instFields env cname flds d = instFields env cname flds d' := by
  intro flds
  induction flds with
  | nil => rfl
  | cons fd rest ih =>
    rw [instFields, instFields, h fd.name, ih]

theorem instantiate_equiv (env : Env) (cname : String)
    (flds : List FieldDecl) {d d' : Data} (h : DataEquiv d d') :
    instantiate env cname flds d = instantiate env cname flds d' := by
  rw [instantiate, instantiate, instFields_equiv env cname h flds]

/-- Outcome relation for one `create` call on observationally equal inputs:
same error, or same node with observationally equal final data. -/
def ResultRel : Except CreateErr (Value × Data) → Except CreateErr (Value × Data) → Prop
  | .error e, .error e' => e = e'
  | .ok (n, d), .ok (n', d') => n = n' ∧ DataEquiv d d'
  | _, _ => False

/-- Outcome relation for the recursion loop. -/
def ChildrenRel : Except CreateErr Data → Except CreateErr Data → Prop
  | .error e, .error e' => e = e'
  | .ok d, .ok d' => DataEquiv d d'
  | _, _ => False

theorem ResultRel.map_fst {r r' : Except CreateErr (Value × Data)}
    (h : ResultRel r r') : r.map Prod.fst = r'.map Prod.fst := by
  cases r with
  | error e =>
    cases r' with
    | error e' =>
      have he : e = e' := h
      subst he
      rfl
    | ok r2 => exact h.elim
  | ok r1 =>
    obtain ⟨n1, fd1⟩ := r1
    cases r' with
    | error e' => exact h.elim
    | ok r2 =>
      obtain ⟨n2, fd2⟩ := r2
      obtain ⟨hn, -⟩ := h
      subst hn
      rfl

theorem createChildren_equiv (env : Env) (cname : String)
    (recCreate : String → Data → Data → Except CreateErr (Value × Data))
    (Hrec : ∀ cls cdata (p p' : Data), DataEquiv p p' →
      ResultRel (recCreate cls cdata p) (recCreate cls cdata p')) :
    ∀ (flds : List FieldDecl) (d d' : Data), DataEquiv d d' →
      ChildrenRel (createChildren env recCreate cname flds d)
        (createChildren env recCreate cname flds d') := by
  intro flds
  induction flds with
  | nil => intro d d' h; exact h
  | cons fd rest ih =>
    intro d d' h
    cases hty : fd.ty with
    | union ts =>
      simp only [createChildren, hty]
      exact ih d d' h
    | atom a =>
      cases a with
      | pconfig childCls =>
        simp only [createChildren, hty]
        rw [h fd.name]
        cases htc : toChildData cname fd.name (d'.lookupKey fd.name) with
        | error er => simp only [htc]; exact rfl
        | ok cd =>
          simp only [htc]
          have hrel := Hrec childCls cd d d' h
          cases hr1 : recCreate childCls cd d with
          | error e1 =>
            cases hr2 : recCreate childCls cd d' with
            | error e2 =>
              rw [hr1, hr2] at hrel
              have he : e1 = e2 := hrel
              subst he
              exact rfl
            | ok r2 =>
              rw [hr1, hr2] at hrel
              exact hrel.elim
          | ok r1 =>
            obtain ⟨n1, fdat1⟩ := r1
            cases hr2 : recCreate childCls cd d' with
            | error e2 =>
              rw [hr1, hr2] at hrel
              exact hrel.elim
            | ok r2 =>
              obtain ⟨n2, fdat2⟩ := r2
              rw [hr1, hr2] at hrel
              obtain ⟨hn, -⟩ := hrel
              subst hn
              exact ih (d.setKey fd.name n1) (d'.setKey fd.name n1)
                (setKey_equiv h fd.name n1)
      | pstr => simp only [createChildren, hty]; exact ih d d' h
      | pint => simp only [createChildren, hty]; exact ih d d' h
      | pfloat => simp only [createChildren, hty]; exact ih d d' h
      | pdict => simp only [createChildren, hty]; exact ih d d' h
      | plist => simp only [createChildren, hty]; exact ih d d' h
      | pnone => simp only [createChildren, hty]; exact ih d d' h
      | pdictAlias => simp only [createChildren, hty]; exact ih d d' h
      | pbaseModel => simp only [createChildren, hty]; exact ih d d' h
      | pother n => simp only [createChildren, hty]; exact ih d d' h

theorem createRest_equiv (env : Env)
    (recCreate : String → Data → Data → Except CreateErr (Value × Data))
    (rn : String) (cdef : ConfigClass) (props : Schema)
    (Hrec : ∀ cls cdata (p p' : Data), DataEquiv p p' →
      ResultRel (recCreate cls cdata p) (recCreate cls cdata p')) :
    ∀ d1 d1' : Data, DataEquiv d1 d1' →
      ResultRel (createRest env recCreate rn cdef props d1)
        (createRest env recCreate rn cdef props d1') := by
  intro d1 d1' h
  have hch := createChildren_equiv env rn recCreate Hrec cdef.fields d1 d1' h
  cases h1 : createChildren env recCreate rn cdef.fields d1 with
  | error e1 =>
    cases h2 : createChildren env recCreate rn cdef.fields d1' with
    | error e2 =>
      rw [h1, h2] at hch
      have he : e1 = e2 := hch
      subst he
      simp only [createRest, h1, h2]
      exact rfl
    | ok d2' =>
      rw [h1, h2] at hch
      exact hch.elim
  | ok d2 =>
    cases h2 : createChildren env recCreate rn cdef.fields d1' with
    | error e2 =>
      rw [h1, h2] at hch
      exact hch.elim
    | ok d2' =>
      rw [h1, h2] at hch
      simp only [createRest, h1, h2]
      rw [validate_fields_equiv rn cdef.fields hch props]
      cases hv : validate_fields rn cdef.fields props d2' with
      | error er => simp only [hv]; exact rfl
      | ok u =>
        cases u
        simp only [hv]
        rw [instantiate_equiv env rn cdef.fields hch]
        cases hi : instantiate env rn cdef.fields d2' with
        | error er => simp only [hi]; exact rfl
        | ok node => simp only [hi]; exact ⟨rfl, hch⟩

theorem createStep_equiv (env : Env)
    (recCreate : String → Data → Data → Except CreateErr (Value × Data))
    (Hrec : ∀ cls cdata (p p' : Data), DataEquiv p p' →
      ResultRel (recCreate cls cdata p) (recCreate cls cdata p')) :
    ∀ (cls : String) (d d' p p' : Data), DataEquiv d d' → DataEquiv p p' →
      ResultRel (createStep env recCreate cls d p)
        (createStep env recCreate cls d' p') := by
  intro cls d d' p p' hd hp
  rw [createStep, createStep, resolveClass_equiv env cls hp]
  cases hres : resolveClass env cls p' with
  | error er => simp only [hres]; exact rfl
  | ok rn =>
    simp only [hres]
    cases hcls : env.findClass rn with
    | none => simp only [hcls]; exact rfl
    | some cdef =>
      simp only [hcls]
      cases hsch : env.findSchema rn with
      | none => simp only [hsch]; exact rfl
      | some props =>
        simp only [hsch]
        cases hens : ensure_all_fields_present_in_schema rn cdef.fields props with
        | error er => simp only [hens]; exact rfl
        | ok u =>
          cases u
          simp only [hens]
          cases hval : validate_schema_with_class rn cdef.fields props with
          | error er => simp only [hval]; exact rfl
          | ok u =>
            cases u
            simp only [hval]
            exact createRest_equiv env recCreate rn cdef props Hrec _ _
              (mergeDefaults_equiv props hd)

theorem create_equiv (env : Env) :
    ∀ (fuel : Nat) (cls : String) (d d' p p' : Data),
      DataEquiv d d' → DataEquiv p p' →
      ResultRel (create env fuel cls d p) (create env fuel cls d' p') := by
  intro fuel
  induction fuel with
  | zero => intro cls d d' p p' _ _; exact rfl
  | succ fuel ih =>
    intro cls d d' p p' hd hp
    rw [create, create]
    exact createStep_equiv env (create env fuel)
      (fun cls' cdata q q' hq => ih cls' cdata cdata q q' (DataEquiv.rfl cdata) hq)
      cls d d' p p' hd hp

/-- C7: constructing from a document that explicitly sets a field to its
schema default yields the same node as constructing with the field omitted;
moreover the default-merge injects the default for every absent schema field
that has one, and never overwrites a present field. -/
theorem C7_default_injection_idempotent (env : Env) (fuel : Nat)
    (cls : String) (d p : Data) (rn : String) (props : Schema) (f : String)
    (e : SchemaEntry) (dv : Value)
    (hres : resolveClass env cls p = .ok rn)
    (hsch : env.findSchema rn = some props)
    (hsl : slookup props f = some e)
    (hdv : e.default = some dv)
    (habs : d.lookupKey f = none) :
    ((create env fuel cls (d.setKey f dv) p).map Prod.fst
      = (create env fuel cls d p).map Prod.fst)
  ∧ (∀ k v0, d.lookupKey k = some v0 →
      (mergeDefaults props d).lookupKey k = some v0)
  ∧ (∀ k e' dv', d.lookupKey k = none → slookup props k = some e' →
      e'.default = some dv' →
      (mergeDefaults props d).lookupKey k = some dv') := by
  refine ⟨?_, ?_, ?_⟩
  · have key : DataEquiv (mergeDefaults props (d.setKey f dv))
        (mergeDefaults props d) := by
      intro k
      rw [mergeDefaults_lookup, mergeDefaults_lookup, lookup_setKey]
      by_cases hfk : f = k
      · subst hfk
        rw [if_pos rfl, habs]
        exact (defaultLookup_of_slookup props f e dv hsl hdv).symm
      · rw [if_neg hfk]
    cases fuel with
    | zero => rfl
    | succ fuel =>
      rw [create, create, createStep, createStep, hres]
      simp only []
      cases hcls : env.findClass rn with
      | none => simp only [hcls]
      | some cdef =>
        simp only [hcls, hsch]
        cases hens : ensure_all_fields_present_in_schema rn cdef.fields props with
        | error er => simp only [hens]
        | ok u =>
          cases u
          simp only [hens]
          cases hval : validate_schema_with_class rn cdef.fields props with
          | error er => simp only [hval]
          | ok u =>
            cases u
            simp only [hval]
            exact ResultRel.map_fst
              (createRest_equiv env (create env fuel) rn cdef props
                (fun cls' cdata q q' hq =>
                  create_equiv env fuel cls' cdata cdata q q'
                    (DataEquiv.rfl cdata) hq)
                _ _ key)
  · intro k v0 hk
    rw [mergeDefaults_lookup, hk]
  · intro k e' dv' hk hsl' hdv'
    rw [mergeDefaults_lookup, hk]
    exact defaultLookup_of_slookup props k e' dv' hsl' hdv'

/-- The schema entry of the C7 witness. -/
def c7Entry : SchemaEntry :=
  { required := some true, type := some "string", default := some (.vStr "hello") }

/-- The schema of the C7 witness. -/
def c7Props : Schema := [("x", c7Entry)]

/-- The environment of the C7 witness. -/
def c7Env : Env :=
  { classes := [("Cfg", { fields := [⟨"x", .atom .pstr, none⟩] })],
    schemas := [("Cfg", c7Props)] }

/-- Witness for C7: constructing `Cfg` with `x` explicitly set to the schema
default `"hello"` produces the same node as constructing from the empty
document. -/
theorem C7_witness :
    resolveClass c7Env "Cfg" .nil = .ok "Cfg"
  ∧ slookup c7Props "x" = some c7Entry
  ∧ ValueMap.lookupKey .nil "x" = none
  ∧ ((create c7Env 1 "Cfg" (ValueMap.setKey .nil "x" (.vStr "hello")) .nil).map Prod.fst
      = (create c7Env 1 "Cfg" .nil .nil).map Prod.fst) :=
  ⟨rfl, rfl, rfl,
   (C7_default_injection_idempotent c7Env 1 "Cfg" .nil .nil "Cfg" c7Props
     "x" c7Entry (.vStr "hello") rfl rfl rfl rfl rfl).1⟩

/-! ## C8: construct–serialize–reconstruct -/

mutual

/-- A value is plain when it contains no constructed node anywhere: the
shape of raw YAML/JSON input documents. -/
def Value.plainB : Value → Bool
  | .vNone => true
  | .vStr _ => true
  | .vInt _ => true
  | .vList xs => xs.plainB
  | .vDict d => d.plainB
  | .vNode _ _ => false

def ValueList.plainB : ValueList → Bool
  | .nil => true
  | .cons v rest => v.plainB && rest.plainB

def ValueMap.plainB : ValueMap → Bool
  | .nil => true
  | .cons _ v rest => v.plainB && rest.plainB

end

mutual

/-- `to_dict` is the identity on plain values. -/
theorem to_dict_plain (env : Env) : ∀ v : Value, v.plainB = true → to_dict env v = v
  | .vNone, _ => rfl
  | .vStr _, _ => rfl
  | .vInt _, _ => rfl
  | .vList xs, h => by
    rw [to_dict, toDictList_plain env xs (by simpa [Value.plainB] using h)]
  | .vDict d, h => by
    rw [to_dict, toDictMap_plain env d (by simpa [Value.plainB] using h)]
  | .vNode c fs, h => by simp [Value.plainB] at h

theorem toDictList_plain (env : Env) :
    ∀ xs : ValueList, xs.plainB = true → toDictList env xs = xs
  | .nil, _ => rfl
  | .cons v rest, h => by
    have hv : v.plainB = true := by
      simp [ValueList.plainB] at h
      exact h.1
    have hr : rest.plainB = true := by
      simp [ValueList.plainB] at h
      exact h.2
    rw [toDictList, to_dict_plain env v hv, toDictList_plain env rest hr]

theorem toDictMap_plain (env : Env) :
    ∀ m : ValueMap, m.plainB = true → toDictMap env m = m
  | .nil, _ => rfl
  | .cons k v rest, h => by
    have hv : v.plainB = true := by
      simp [ValueMap.plainB] at h
      exact h.1
    have hr : rest.plainB = true := by
      simp [ValueMap.plainB] at h
      exact h.2
    rw [toDictMap, to_dict_plain env v hv, toDictMap_plain env rest hr]

end

/-- Lookup characterization of the `None`-padding loop of `to_dict`. -/
theorem addExtras_lookup (props : Schema) :
    ∀ (m : ValueMap) (k : String),
      (addExtras props m).lookupKey k =
        match m.lookupKey k with
        | some v => some v
        | none => if (slookup props k).isSome then some .vNone else none := by
  induction props with
  | nil =>
    intro m k
    cases h : m.lookupKey k <;> simp [addExtras, slookup, h]
  | cons pe rest ih =>
    intro m k
    obtain ⟨k', e⟩ := pe
    by_cases hkk : k' = k
    · subst hkk
      cases hmk : m.lookupKey k' with
      | some v =>
        simp only [addExtras, hmk, Option.isNone_some, Bool.false_eq_true, if_false]
        rw [ih m k', hmk]
      | none =>
        simp only [addExtras, hmk, Option.isNone_none, if_true]
        rw [ih (m.setKey k' .vNone) k', lookup_setKey]
        simp [slookup]
    · have step : ∀ m' : ValueMap, addExtras ((k', e) :: rest) m'
          = addExtras rest
              (if (m'.lookupKey k').isNone then m'.setKey k' .vNone else m') :=
        fun _ => rfl
      rw [step m]
      cases hmk : m.lookupKey k' with
      | some v =>
        simp only [hmk, Option.isNone_some, Bool.false_eq_true, if_false]
        rw [ih m k]
        simp [slookup, hkk]
      | none =>
        simp only [hmk, Option.isNone_none, if_true]
        rw [ih (m.setKey k' .vNone) k, lookup_setKey]
        simp only [if_neg hkk]
        simp [slookup, hkk]

theorem slookup_isSome_of_mem (props : Schema) (k : String) (e : SchemaEntry)
    (h : (k, e) ∈ props) : (slookup props k).isSome = true := by
  induction props with
  | nil => exact absurd h (List.not_mem_nil _)
  | cons pe rest ih =>
    obtain ⟨k', e'⟩ := pe
    by_cases hkk : k' = k
    · simp [slookup, hkk]
    · rcases List.mem_cons.mp h with h1 | h1
      · injection h1 with h1a h1b
        exact absurd h1a.symm hkk
      · simp only [slookup, if_neg hkk]
        exact ih h1

/-- When every schema key is already present, the default-merge is a no-op
(literally: the loop never writes). -/
theorem mergeDefaults_all_present (props : Schema) :
    ∀ d : Data, (∀ ke ∈ props, (d.lookupKey ke.1).isSome = true) →
      mergeDefaults props d = d := by
  induction props with
  | nil => intro d _; rfl
  | cons pe rest ih =>
    intro d h
    obtain ⟨k, e⟩ := pe
    have hk : (d.lookupKey k).isSome = true := h (k, e) (List.mem_cons_self _ _)
    cases hdk : d.lookupKey k with
    | none => rw [hdk] at hk; exact Bool.noConfusion hk
    | some v =>
      simp only [mergeDefaults, hdk, Option.isNone_some, Bool.false_eq_true, if_false]
      exact ih d (fun ke hm => h ke (List.mem_cons_of_mem _ hm))

/-- With no variant family, `get_class` returns `cls` whatever the parent
data is. -/
theorem resolveClass_identity (env : Env) (cn : String) (cdef : ConfigClass)
    (p : Data) (hcls : env.findClass cn = some cdef)
    (hfam : cdef.family = none) : resolveClass env cn p = .ok cn := by
  simp [resolveClass, hcls, hfam]

/-- The value pydantic assigns to one field: the data value if present,
else the pydantic default (irrelevant fallback `None` when there is none —
`instFields` errors in that case). -/
def instValueOf (data : Data) (fd : FieldDecl) : Value :=
  match data.lookupKey fd.name with
  | some v => v
  | none => fd.pydDefault.getD .vNone

/-- The field map a successful instantiation produces. -/
def instMap : List FieldDecl → Data → ValueMap
  | [], _ => .nil
  | fd :: rest, data => .cons fd.name (instValueOf data fd) (instMap rest data)

theorem instFields_eq (env : Env) (cname : String) :
    ∀ (flds : List FieldDecl) (data : Data) (m : ValueMap),
      instFields env cname flds data = .ok m → m = instMap flds data := by
  intro flds
  induction flds with
  | nil =>
    intro data m h
    injection h with h'
    exact h'.symm
  | cons fd rest ih =>
    intro data m h
    cases hlk : data.lookupKey fd.name with
    | some v =>
      cases hacc : tyAccepts env fd.ty v with
      | false =>
        simp only [instFields, hlk, hacc, Bool.false_eq_true, if_false] at h
        exact Except.noConfusion h
      | true =>
        simp only [instFields, hlk, hacc, if_true] at h
        cases hrec : instFields env cname rest data with
        | error er => rw [hrec] at h; exact Except.noConfusion h
        | ok m' =>
          rw [hrec] at h
          injection h with h'
          rw [← h', instMap, ih data m' hrec, instValueOf, hlk]
    | none =>
      cases hd : fd.pydDefault with
      | some dv =>
        simp only [instFields, hlk, hd] at h
        cases hrec : instFields env cname rest data with
        | error er => rw [hrec] at h; exact Except.noConfusion h
        | ok m' =>
          rw [hrec] at h
          injection h with h'
          rw [← h', instMap, ih data m' hrec, instValueOf, hlk, hd]
          rfl
      | none =>
        simp only [instFields, hlk, hd] at h
        exact Except.noConfusion h

theorem instMap_lookup (d1 : Data) :
    ∀ flds : List FieldDecl, (flds.map FieldDecl.name).Nodup →
      ∀ fd ∈ flds, (instMap flds d1).lookupKey fd.name = some (instValueOf d1 fd) := by
  intro flds
  induction flds with
  | nil => intro _ fd hm; exact absurd hm (List.not_mem_nil _)
  | cons fd0 rest ih =>
    intro hnd fd hm
    have hnd' : (rest.map FieldDecl.name).Nodup := (List.nodup_cons.mp hnd).2
    have hni : fd0.name ∉ rest.map FieldDecl.name := (List.nodup_cons.mp hnd).1
    rcases List.mem_cons.mp hm with h1 | h1
    · subst h1
      simp [instMap, ValueMap.lookupKey]
    · have hne : fd0.name ≠ fd.name := by
        intro he
        exact hni (he ▸ List.mem_map_of_mem FieldDecl.name h1)
      simp only [instMap, ValueMap.lookupKey, if_neg hne]
      exact ih hnd' fd h1

theorem instMap_congr (d1 d2 : Data) :
    ∀ flds : List FieldDecl,
      (∀ fd ∈ flds, instValueOf d2 fd = instValueOf d1 fd) →
      instMap flds d2 = instMap flds d1 := by
  intro flds
  induction flds with
  | nil => intro _; rfl
  | cons fd rest ih =>
    intro h
    rw [instMap, instMap, h fd (List.mem_cons_self _ _),
      ih (fun fd' hm => h fd' (List.mem_cons_of_mem _ hm))]

/-- Decomposition of a successful one-level `create` (identity resolution,
no node-typed fields): the final data is the default-merged input, and the
node is the pydantic field map built from it. -/
theorem create_success_components (env : Env) (fuel : Nat) (cn : String)
    (cdef : ConfigClass) (props : Schema) (d p : Data) (node : Value)
    (fdat : Data)
    (hcls : env.findClass cn = some cdef)
    (hfam : cdef.family = none)
    (hsch : env.findSchema cn = some props)
    (hnonode : ∀ fd ∈ cdef.fields, isNodeType fd.ty = false)
    (hcr : create env fuel cn d p = .ok (node, fdat)) :
    fdat = mergeDefaults props d ∧
      ∃ m, instFields env cn cdef.fields (mergeDefaults props d) = .ok m ∧
        node = .vNode cn m := by
  cases fuel with
  | zero => exact Except.noConfusion hcr
  | succ fuel =>
    rw [create, createStep] at hcr
    simp only [resolveClass_identity env cn cdef p hcls hfam, hcls, hsch] at hcr
    cases hens : ensure_all_fields_present_in_schema cn cdef.fields props with
    | error er => simp only [hens] at hcr; exact Except.noConfusion hcr
    | ok u =>
      cases u
      simp only [hens] at hcr
      cases hval : validate_schema_with_class cn cdef.fields props with
      | error er => simp only [hval] at hcr; exact Except.noConfusion hcr
      | ok u =>
        cases u
        simp only [hval, createRest,
          createChildren_no_node env (create env fuel) cn cdef.fields hnonode
            (mergeDefaults props d)] at hcr
        cases hvf : validate_fields cn cdef.fields props (mergeDefaults props d) with
        | error er => simp only [hvf] at hcr; exact Except.noConfusion hcr
        | ok u =>
          cases u
          simp only [hvf] at hcr
          cases hif : instFields env cn cdef.fields (mergeDefaults props d) with
          | error er =>
            simp only [instantiate, hif, Except.map] at hcr
            exact Except.noConfusion hcr
          | ok m =>
            simp only [instantiate, hif, Except.map] at hcr
            injection hcr with h'
            injection h' with hn hf
            exact ⟨hf.symm, m, rfl, hn.symm⟩

/-- C8 amended: for a single-level node (identity variant resolution, no
nested node fields, distinct field names, plain field values), *if* the
reconstruction from the serialized document succeeds, it produces a node
equal to the original.  (Reconstruction itself is not guaranteed to succeed:
see the counterexample, where `to_dict`'s `None` padding for a schema
property the node lacks fails enum re-validation.) -/
theorem C8_roundtrip_equal_when_reconstruction_succeeds (env : Env)
    (fuel₁ fuel₂ : Nat) (cn : String) (cdef : ConfigClass) (props : Schema)
    (d p p' : Data) (fs : ValueMap) (fd0 : Data) (node₂ : Value) (fd₂ : Data)
    (hcls : env.findClass cn = some cdef)
    (hfam : cdef.family = none)
    (hsch : env.findSchema cn = some props)
    (hnonode : ∀ fd ∈ cdef.fields, isNodeType fd.ty = false)
    (hnd : (cdef.fields.map FieldDecl.name).Nodup)
    (h1 : create env fuel₁ cn d p = .ok (.vNode cn fs, fd0))
    (hplain : fs.plainB = true)
    (h2 : create env fuel₂ cn (serializedData env (.vNode cn fs)) p'
        = .ok (node₂, fd₂)) :
    node₂ = .vNode cn fs := by
  obtain ⟨-, m, hif, hnode⟩ :=
    create_success_components env fuel₁ cn cdef props d p _ fd0
      hcls hfam hsch hnonode h1
  have hfs : fs = m := by
    injection hnode with h1a h1b
  have hfs_eq : fs = instMap cdef.fields (mergeDefaults props d) := by
    rw [hfs]
    exact instFields_eq env cn cdef.fields (mergeDefaults props d) m hif
  have hser : serializedData env (.vNode cn fs) = addExtras props fs := by
    rw [serializedData, to_dict, hsch, toDictMap_plain env fs hplain]
  rw [hser] at h2
  obtain ⟨-, g, hig, hnode₂⟩ :=
    create_success_components env fuel₂ cn cdef props (addExtras props fs) p'
      node₂ fd₂ hcls hfam hsch hnonode h2
  have hmerge : mergeDefaults props (addExtras props fs) = addExtras props fs := by
    apply mergeDefaults_all_present
    intro ke hke
    rw [addExtras_lookup]
    cases hfk : fs.lookupKey ke.1 with
    | some v => simp
    | none => simp [slookup_isSome_of_mem props ke.1 ke.2 hke]
  rw [hmerge] at hig
  have hg : g = instMap cdef.fields (addExtras props fs) :=
    instFields_eq env cn cdef.fields (addExtras props fs) g hig
  have hcong : instMap cdef.fields (addExtras props fs)
      = instMap cdef.fields (mergeDefaults props d) := by
    apply instMap_congr
    intro fd hm
    have hfl : fs.lookupKey fd.name
        = some (instValueOf (mergeDefaults props d) fd) := by
      rw [hfs_eq]
      exact instMap_lookup (mergeDefaults props d) cdef.fields hnd fd hm
    rw [instValueOf, addExtras_lookup, hfl]
  rw [hnode₂, hg, hcong, ← hfs_eq]

/-- The environment of the C8 counterexample: the schema has a property
`mode` (with an enum constraint) that the class does not declare. -/
def c8Env : Env :=
  { classes := [("C", { fields := [] })],
    schemas := [("C",
      [("mode", { required := some false, type := some "string",
                  enum := some (.cons (.vStr "a") .nil) })])] }

/-- C8 counterexample: construction succeeds, but `to_dict` pads the
schema-only property `mode` with `None`, and reconstructing from the
serialized document fails `NotInEnum` — construct–serialize–reconstruct is
not a round trip. -/
theorem C8_counterexample :
    create c8Env 1 "C" .nil .nil = .ok (.vNode "C" .nil, .nil)
  ∧ serializedData c8Env (.vNode "C" .nil) = .cons "mode" .vNone .nil
  ∧ create c8Env 1 "C" (serializedData c8Env (.vNode "C" .nil)) .nil
      = .error (.notInEnum "C" "mode") :=
  ⟨rfl, rfl, rfl⟩

/-- The environment of the C8 witness. -/
def c8wEnv : Env :=
  { classes := [("W", { fields := [⟨"x", .atom .pstr, none⟩] })],
    schemas := [("W", [("x", { required := some true, type := some "string" })])] }

/-- The class of the C8 witness. -/
def c8wCls : ConfigClass := { fields := [⟨"x", .atom .pstr, none⟩] }

/-- The schema of the C8 witness. -/
def c8wProps : Schema := [("x", { required := some true, type := some "string" })]

/-- Witness for C8 amended: a one-field node round-trips to an equal node
when the reconstruction succeeds (here it does). -/
theorem C8_witness :
    create c8wEnv 1 "W" (.cons "x" (.vStr "v") .nil) .nil
        = .ok (.vNode "W" (.cons "x" (.vStr "v") .nil), .cons "x" (.vStr "v") .nil)
  ∧ (ValueMap.cons "x" (.vStr "v") .nil).plainB = true
  ∧ create c8wEnv 1 "W" (serializedData c8wEnv (.vNode "W" (.cons "x" (.vStr "v") .nil))) .nil
        = .ok (.vNode "W" (.cons "x" (.vStr "v") .nil), .cons "x" (.vStr "v") .nil)
  ∧ (Value.vNode "W" (.cons "x" (.vStr "v") .nil))
        = .vNode "W" (.cons "x" (.vStr "v") .nil) :=
  ⟨rfl, rfl, rfl,
   C8_roundtrip_equal_when_reconstruction_succeeds c8wEnv 1 1 "W" c8wCls
     c8wProps (.cons "x" (.vStr "v") .nil) .nil .nil
     (.cons "x" (.vStr "v") .nil) (.cons "x" (.vStr "v") .nil)
     (.vNode "W" (.cons "x" (.vStr "v") .nil)) (.cons "x" (.vStr "v") .nil)
     rfl rfl rfl (by decide) (by decide) rfl rfl rfl⟩
